import Mathlib

/-!
Verification of the tolerant response-parsing and score-aggregation core of the
`script-writer` repository (`src/common.py`, `src/evaluators.py`), via a shallow
embedding.  Python strings are modelled as `String`/`List Char`, Python floats
as exact rationals (`ℚ`), Python exceptions as `Except` values.  Each embedded
definition mirrors the corresponding source function; theorems at the end of
the file settle the specification claims.
-/

namespace ScriptWriter

/-! ## Python string primitives -/

/-- Characters treated as whitespace by Python: matched by the regex class
`\s` and stripped by `str.strip()` (ASCII whitespace, the C0 separators
`\x1c`-`\x1f`, and the Unicode space characters). -/
def isPySpace (c : Char) : Bool :=
  c.toNat = 0x20 || c.toNat = 0x09 || c.toNat = 0x0a || c.toNat = 0x0b ||
  c.toNat = 0x0c || c.toNat = 0x0d ||
  (0x1c ≤ c.toNat && c.toNat ≤ 0x1f) || c.toNat = 0x85 || c.toNat = 0xa0 ||
  c.toNat = 0x1680 || (0x2000 ≤ c.toNat && c.toNat ≤ 0x200a) ||
  c.toNat = 0x2028 || c.toNat = 0x2029 || c.toNat = 0x202f ||
  c.toNat = 0x205f || c.toNat = 0x3000

/-- Python `str.strip()` on a character list: drop whitespace from both ends. -/
def pyStripChars (l : List Char) : List Char :=
  ((l.dropWhile isPySpace).reverse.dropWhile isPySpace).reverse

/-- Python `str.strip()`. -/
def pyStrip (s : String) : String := ⟨pyStripChars s.data⟩

/-- `re.sub(r'\s+', ' ', _)`: collapse every maximal run of whitespace
characters to a single ASCII space. -/
def collapseWs : List Char → List Char
  | [] => []
  | [c] => if isPySpace c then [' '] else [c]
  | c1 :: c2 :: rest =>
    if isPySpace c1 && isPySpace c2 then collapseWs (c2 :: rest)
    else (if isPySpace c1 then ' ' else c1) :: collapseWs (c2 :: rest)

/-- `.replace('\n', ' ').replace('\t', ' ').replace('\r', ' ')`: replacement of
a single character by a single character is a character map. -/
def nlTabCrToSpace (c : Char) : Char :=
  if c = '\n' || c = '\t' || c = '\r' then ' ' else c

/-- `re.sub(r'[\x00-\x1f\x7f]', ' ', _)`: replace ASCII control characters by
spaces. -/
def ctrlToSpace (c : Char) : Char :=
  if c.toNat ≤ 0x1f || c.toNat = 0x7f then ' ' else c

/-- Fueled worker for `str.replace(pat, '')`: scan left to right and delete
every (non-overlapping) occurrence of `pat`.  The fuel is the length of the
input, which suffices because each step consumes at least one character. -/
def removeAllFuel : Nat → List Char → List Char → List Char
  | 0, _, l => l
  | _ + 1, _, [] => []
  | fuel + 1, pat, c :: rest =>
    if pat ≠ [] ∧ pat.isPrefixOf (c :: rest) then
      removeAllFuel fuel pat ((c :: rest).drop pat.length)
    else
      c :: removeAllFuel fuel pat rest

/-- Python `s.replace(pat, '')` for a non-empty pattern `pat`. -/
def removeAll (pat l : List Char) : List Char := removeAllFuel l.length pat l

/-! ## Data model (`src/common.py`) -/

/-- `@dataclass class StoryIdea`: a single story idea. -/
structure StoryIdea where
  title : String
  body : String
deriving DecidableEq, Repr

/-- `@dataclass class BrainstormRequest`: input parameters for brainstorming. -/
structure BrainstormRequest where
  genre : String
  platform : String
  requirements_section : String := ""
deriving DecidableEq, Repr

/-- `@dataclass class EvaluationResult`: result from evaluating story ideas.
Scores are Python floats, modelled as exact rationals. -/
structure EvaluationResult where
  novelty_score : ℚ
  feasibility_score : ℚ
  structure_score : ℚ
  detail_score : ℚ
  logical_coherence_score : ℚ
  genre_score : ℚ
  engagement_score : ℚ
  overall_score : ℚ
  feedback : String
deriving DecidableEq, Repr

/-! ## `StoryIdeaEvaluator._parse_score` (`src/evaluators.py` lines 234-250) -/

/-- Value of a run of decimal digits. -/
def digitsToNat (l : List Char) : Nat :=
  l.foldl (fun acc c => acc * 10 + (c.toNat - 48)) 0

/-- Text of the greedy match of `\d+(?:\.\d+)?` anchored at the head of `l`
(the head is known to be a digit): a maximal digit run, optionally followed
by `.` and a further non-empty maximal digit run. -/
def matchNumberAt (l : List Char) : List Char :=
  let intDigits := l.takeWhile Char.isDigit
  match l.drop intDigits.length with
  | '.' :: r2 =>
    let fracDigits := r2.takeWhile Char.isDigit
    if fracDigits = [] then intDigits else intDigits ++ '.' :: fracDigits
  | _ => intDigits

/-- `re.findall(r'(\d+(?:\.\d+)?)', s)` restricted to its first match, as used
by `_parse_score` (`matches[0]`): the text of the leftmost unsigned decimal
number. -/
def extractFirstNumber : List Char → Option (List Char)
  | [] => none
  | c :: rest =>
    if c.isDigit then some (matchNumberAt (c :: rest)) else extractFirstNumber rest

/-- `float(matches[0])`: numeric value of a matched `\d+(?:\.\d+)?` numeral
(this conversion cannot fail, so the source's `except ValueError` around it is
dead). -/
def pyFloatOfMatch (m : List Char) : ℚ :=
  let intDigits := m.takeWhile Char.isDigit
  match m.drop intDigits.length with
  | '.' :: fracDigits =>
    (digitsToNat intDigits : ℚ) + (digitsToNat fracDigits : ℚ) / (10 : ℚ) ^ fracDigits.length
  | _ => (digitsToNat intDigits : ℚ)

/-- `StoryIdeaEvaluator._parse_score`: extract the first number from the score
text and clamp it with `min(max(score, 0.0), 10.0)`; if no number is found,
default to `5.0`.  (The source's `isinstance(score_str, (int, float))` branch
is unreachable here because judge outputs are strings.) -/
def _parse_score (score_str : String) : ℚ :=
  match extractFirstNumber score_str.data with
  | some m => min (max (pyFloatOfMatch m) 0) 10
  | none => 5

/-! ## JSON values and `json.loads` (Python's strict decoder)

Python distinguishes `int` and `float` results; floats are modelled as exact
rationals.  `NaN`/`Infinity`/`-Infinity` (accepted by `json.loads`) get their
own constructors.  Objects keep their member list in parse order; lookup uses
`dict(pairs)` semantics (a later duplicate key wins). -/

mutual
inductive JValue where
  | jnull
  | jbool (b : Bool)
  | jint (n : ℤ)
  | jfloat (q : ℚ)
  | jnan
  | jinf
  | jninf
  | jstr (s : List Char)
  | jarr (items : JArr)
  | jobj (members : JObj)

inductive JArr where
  | nil
  | cons (v : JValue) (tail : JArr)

inductive JObj where
  | nil
  | cons (key : List Char) (v : JValue) (tail : JObj)
end

def JArr.ofList : List JValue → JArr
  | [] => .nil
  | v :: t => .cons v (JArr.ofList t)

def JArr.toList : JArr → List JValue
  | .nil => []
  | .cons v t => v :: JArr.toList t

def JObj.ofList : List (List Char × JValue) → JObj
  | [] => .nil
  | (k, v) :: t => .cons k v (JObj.ofList t)

/-- `dict(pairs)[key]` lookup: the binding for the *last* occurrence of the
key wins, as when Python builds a `dict` from a pair list. -/
def JObj.get? : JObj → List Char → Option JValue
  | .nil, _ => none
  | .cons k v t, key =>
    match JObj.get? t key with
    | some r => some r
    | none => if k = key then some v else none

/-- `key in dict(pairs)`. -/
def JObj.hasKey (m : JObj) (k : List Char) : Bool := (m.get? k).isSome

/-- Failure kinds of Python's `json.JSONDecodeError`, by message.  Only
`unterminatedString` carries the message fragment `"Unterminated string"`
tested at `src/common.py` line 90.  `noJsonArrayFound` is the error raised by
`extract_json_with_regex` itself.  `outOfFuel` is an artefact of the fueled
embedding; the initial fuel (input length + 1) always suffices because every
recursive parsing step first consumes at least one character. -/
inductive JsonErr where
  | unterminatedString
  | invalidControlChar
  | invalidEscape
  | invalidUnicodeEscape
  | expectingValue
  | expectingColon
  | expectingComma
  | expectingPropertyName
  | extraData
  | noJsonArrayFound
  | outOfFuel
deriving DecidableEq, Repr

/-- JSON inter-token whitespace (`json.decoder.WHITESPACE`): space, tab,
newline, carriage return. -/
def isJsonWs (c : Char) : Bool := c = ' ' || c = '\t' || c = '\n' || c = '\r'

def hexVal? (c : Char) : Option Nat :=
  if '0' ≤ c ∧ c ≤ '9' then some (c.toNat - 48)
  else if 'a' ≤ c ∧ c ≤ 'f' then some (c.toNat - 87)
  else if 'A' ≤ c ∧ c ≤ 'F' then some (c.toNat - 55)
  else none

/-- Single-character JSON string escapes (`json.decoder.BACKSLASH`). -/
def escapeChar? (c : Char) : Option Char :=
  if c = '"' then some '"'
  else if c = '\\' then some '\\'
  else if c = '/' then some '/'
  else if c = 'b' then some (Char.ofNat 8)
  else if c = 'f' then some (Char.ofNat 12)
  else if c = 'n' then some '\n'
  else if c = 'r' then some '\r'
  else if c = 't' then some '\t'
  else none

/-- `py_scanstring`, positioned just after the opening quote: collect
characters until the closing quote, decoding escapes, rejecting raw control
characters (strict mode) and reporting an unterminated string at end of
input.  (Surrogate-pair joining of `\uXXXX` escapes is not modelled; `\u`
escapes decode through `Char.ofNat`.) -/
def scanString : List Char → Except JsonErr (List Char × List Char)
  | [] => .error .unterminatedString
  | c :: rest =>
    if c = '"' then .ok ([], rest)
    else if c = '\\' then
      match rest with
      | [] => .error .unterminatedString
      | e :: r2 =>
        if e = 'u' then
          match r2 with
          | h1 :: h2 :: h3 :: h4 :: r3 =>
            match hexVal? h1, hexVal? h2, hexVal? h3, hexVal? h4 with
            | some a, some b, some c2, some d =>
              (scanString r3).map (fun p => (Char.ofNat (((a * 16 + b) * 16 + c2) * 16 + d) :: p.1, p.2))
            | _, _, _, _ => .error .invalidUnicodeEscape
          | _ => .error .invalidUnicodeEscape
        else
          match escapeChar? e with
          | some ec => (scanString r2).map (fun p => (ec :: p.1, p.2))
          | none => .error .invalidEscape
    else if c.toNat < 0x20 then .error .invalidControlChar
    else (scanString rest).map (fun p => (c :: p.1, p.2))

/-- The `(-?(?:0|[1-9]\d*))` integer part of `json.scanner.NUMBER_RE`. -/
def parseIntPart : List Char → Option (Nat × List Char)
  | [] => none
  | c :: t =>
    if c = '0' then some (0, t)
    else if c.isDigit then
      let ds := (c :: t).takeWhile Char.isDigit
      some (digitsToNat ds, (c :: t).drop ds.length)
    else none

/-- The optional `(\.\d+)?` fraction part: value and digit count. -/
def parseFracPart (l : List Char) : Option (Nat × Nat) × List Char :=
  match l with
  | '.' :: t =>
    let ds := t.takeWhile Char.isDigit
    if ds = [] then (none, l) else (some (digitsToNat ds, ds.length), t.drop ds.length)
  | _ => (none, l)

/-- The optional `([eE][-+]?\d+)?` exponent part. -/
def parseExpPart (l : List Char) : Option ℤ × List Char :=
  match l with
  | [] => (none, l)
  | c :: t =>
    if c = 'e' || c = 'E' then
      let signAndRest : Bool × List Char :=
        match t with
        | '+' :: u => (false, u)
        | '-' :: u => (true, u)
        | _ => (false, t)
      let ds := signAndRest.2.takeWhile Char.isDigit
      if ds = [] then (none, l)
      else
        (some (if signAndRest.1 then -(digitsToNat ds : ℤ) else (digitsToNat ds : ℤ)),
         signAndRest.2.drop ds.length)
    else (none, l)

/-- Match `NUMBER_RE` at the head of `l`; an integer-only match yields a
Python `int`, otherwise a `float` (exact rational here). -/
def parseJsonNumber (l : List Char) : Option (JValue × List Char) :=
  let signAndRest : Bool × List Char :=
    match l with
    | '-' :: t => (true, t)
    | _ => (false, l)
  match parseIntPart signAndRest.2 with
  | none => none
  | some (ip, l2) =>
    let fracAndRest := parseFracPart l2
    let expAndRest := parseExpPart fracAndRest.2
    match fracAndRest.1, expAndRest.1 with
    | none, none =>
      some (.jint (if signAndRest.1 then -(ip : ℤ) else (ip : ℤ)), l2)
    | fr, ex =>
      let base : ℚ :=
        (ip : ℚ) + (match fr with
          | some fv => (fv.1 : ℚ) / (10 : ℚ) ^ fv.2
          | none => 0)
      let expVal : ℤ := match ex with | some e => e | none => 0
      let scaled : ℚ := base * (10 : ℚ) ^ expVal
      some (.jfloat (if signAndRest.1 then -scaled else scaled), expAndRest.2)

mutual
/-- `scan_once`: parse one JSON value after skipping leading whitespace. -/
def parseValue : Nat → List Char → Except JsonErr (JValue × List Char)
  | 0, _ => .error .outOfFuel
  | fuel + 1, l =>
    let l1 := l.dropWhile isJsonWs
    match l1 with
    | [] => .error .expectingValue
    | c :: rest =>
      if c = '"' then (scanString rest).map (fun p => (.jstr p.1, p.2))
      else if c = '{' then
        match rest.dropWhile isJsonWs with
        | '}' :: r2 => .ok (.jobj .nil, r2)
        | r1 => parseObjMembers fuel r1 []
      else if c = '[' then
        match rest.dropWhile isJsonWs with
        | ']' :: r2 => .ok (.jarr .nil, r2)
        | r1 => parseArrayItems fuel r1 []
      else if ['n', 'u', 'l', 'l'].isPrefixOf l1 then .ok (.jnull, l1.drop 4)
      else if ['t', 'r', 'u', 'e'].isPrefixOf l1 then .ok (.jbool true, l1.drop 4)
      else if ['f', 'a', 'l', 's', 'e'].isPrefixOf l1 then .ok (.jbool false, l1.drop 5)
      else
        match parseJsonNumber l1 with
        | some (v, r) => .ok (v, r)
        | none =>
          if ['N', 'a', 'N'].isPrefixOf l1 then .ok (.jnan, l1.drop 3)
          else if ['I', 'n', 'f', 'i', 'n', 'i', 't', 'y'].isPrefixOf l1 then .ok (.jinf, l1.drop 8)
          else if ['-', 'I', 'n', 'f', 'i', 'n', 'i', 't', 'y'].isPrefixOf l1 then
            .ok (.jninf, l1.drop 9)
          else .error .expectingValue

/-- `JSONArray` element loop, positioned at the start of the next element. -/
def parseArrayItems : Nat → List Char → List JValue → Except JsonErr (JValue × List Char)
  | 0, _, _ => .error .outOfFuel
  | fuel + 1, l, acc =>
    match parseValue fuel l with
    | .error e => .error e
    | .ok (v, rest) =>
      match rest.dropWhile isJsonWs with
      | ']' :: r2 => .ok (.jarr (JArr.ofList (acc ++ [v])), r2)
      | ',' :: r2 => parseArrayItems fuel r2 (acc ++ [v])
      | _ => .error .expectingComma

/-- `JSONObject` member loop, positioned at the (whitespace-skipped) start of
the next `"key": value` member. -/
def parseObjMembers : Nat → List Char → List (List Char × JValue) →
    Except JsonErr (JValue × List Char)
  | 0, _, _ => .error .outOfFuel
  | fuel + 1, l, acc =>
    match l with
    | '"' :: r1 =>
      match scanString r1 with
      | .error e => .error e
      | .ok (key, r2) =>
        match r2.dropWhile isJsonWs with
        | ':' :: r4 =>
          match parseValue fuel r4 with
          | .error e => .error e
          | .ok (v, r5) =>
            match r5.dropWhile isJsonWs with
            | '}' :: r7 => .ok (.jobj (JObj.ofList (acc ++ [(key, v)])), r7)
            | ',' :: r7 => parseObjMembers fuel (r7.dropWhile isJsonWs) (acc ++ [(key, v)])
            | _ => .error .expectingComma
        | _ => .error .expectingColon
    | _ => .error .expectingPropertyName
end

/-- `json.loads`: decode one value, then reject trailing non-whitespace
(`Extra data`). -/
def jsonLoads (l : List Char) : Except JsonErr JValue :=
  match parseValue (l.length + 1) l with
  | .error e => .error e
  | .ok (v, rest) => if rest.dropWhile isJsonWs = [] then .ok v else .error .extraData

/-! ## `str()` conversion of parsed JSON values

`parse_story_ideas` applies `str(...)` to the `title`/`body` values, which may
be any JSON value.  String values pass through unchanged (the only case the
claims exercise); numbers render in plain decimal (Python's shortest-repr
float formatting and scientific notation are not reproduced), and container
values render in Python `repr` style with single-quoted strings. -/

/-- Decimal digits of `n`, most significant first ("0" for zero). -/
def natDigits (n : Nat) : List Char := (Nat.toDigits 10 n)

def intStr (n : ℤ) : List Char :=
  if n < 0 then '-' :: natDigits n.natAbs else natDigits n.natAbs

/-- Render a nonnegative rational that is not an integer: integer part,
a dot, then the fraction digits for the smallest power-of-ten denominator
(if one at most `10 ^ 40` exists; otherwise fall back to `num/den` form). -/
def ratFracStrNN (q : ℚ) : List Char :=
  match (List.range 40).find? (fun k => (q.den : ℕ) ∣ 10 ^ (k + 1)) with
  | some k =>
    let digitsCount := k + 1
    let ip : ℕ := (q.num.natAbs) / q.den
    let fracNum : ℕ := (q * (10 : ℚ) ^ digitsCount).num.natAbs - ip * 10 ^ digitsCount
    let fracDigits := natDigits fracNum
    natDigits ip ++ '.' :: (List.replicate (digitsCount - fracDigits.length) '0' ++ fracDigits)
  | none => natDigits q.num.natAbs ++ '/' :: natDigits q.den

/-- `str()` of a Python float (modelled exactly in decimal; no scientific
notation or 17-digit shortest rounding). -/
def ratFloatStr (q : ℚ) : List Char :=
  if q < 0 then '-' :: (if q.den = 1 then natDigits q.num.natAbs ++ ['.', '0'] else ratFracStrNN (-q))
  else if q.den = 1 then natDigits q.num.natAbs ++ ['.', '0']
  else ratFracStrNN q

mutual
/-- Python `str(value)` for a decoded JSON value. -/
def pyStrVal : JValue → List Char
  | .jnull => 'N' :: 'o' :: 'n' :: 'e' :: []
  | .jbool true => 'T' :: 'r' :: 'u' :: 'e' :: []
  | .jbool false => 'F' :: 'a' :: 'l' :: 's' :: 'e' :: []
  | .jint n => intStr n
  | .jfloat q => ratFloatStr q
  | .jnan => 'n' :: 'a' :: 'n' :: []
  | .jinf => 'i' :: 'n' :: 'f' :: []
  | .jninf => '-' :: 'i' :: 'n' :: 'f' :: []
  | .jstr s => s
  | .jarr a => '[' :: joinCommaSpace (pyReprArr a) ++ [']']
  | .jobj m => '{' :: joinCommaSpace (pyReprObj m) ++ ['}']

/-- Python `repr(value)`, used for elements inside container `str()`. -/
def pyReprVal : JValue → List Char
  | .jnull => 'N' :: 'o' :: 'n' :: 'e' :: []
  | .jbool true => 'T' :: 'r' :: 'u' :: 'e' :: []
  | .jbool false => 'F' :: 'a' :: 'l' :: 's' :: 'e' :: []
  | .jint n => intStr n
  | .jfloat q => ratFloatStr q
  | .jnan => 'n' :: 'a' :: 'n' :: []
  | .jinf => 'i' :: 'n' :: 'f' :: []
  | .jninf => '-' :: 'i' :: 'n' :: 'f' :: []
  | .jstr s => '\'' :: s ++ ['\'']
  | .jarr a => '[' :: joinCommaSpace (pyReprArr a) ++ [']']
  | .jobj m => '{' :: joinCommaSpace (pyReprObj m) ++ ['}']

def pyReprArr : JArr → List (List Char)
  | .nil => []
  | .cons v t => pyReprVal v :: pyReprArr t

def pyReprObj : JObj → List (List Char)
  | .nil => []
  | .cons k v t => ('\'' :: k ++ '\'' :: ':' :: ' ' :: pyReprVal v) :: pyReprObj t

/-- Join rendered fragments with `", "`. -/
def joinCommaSpace : List (List Char) → List Char
  | [] => []
  | [x] => x
  | x :: y :: t => x ++ ',' :: ' ' :: joinCommaSpace (y :: t)
end

/-! ## `attempt_fix_truncated_json` (`src/common.py` lines 131-178) -/

/-- State of the brace-balancing scan: running open-brace count, whether the
scanner is inside a quoted string, whether the next character is escaped, and
the offset just past the most recent complete top-level object (`-1` before
one is seen, as in the source). -/
structure FixScanState where
  braceCount : ℤ
  inString : Bool
  escapeNext : Bool
  lastCompletePos : ℤ
deriving DecidableEq, Repr

/-- One iteration of the scan loop at index `ic.1`, character `ic.2`. -/
def fixScanStep (st : FixScanState) (ic : Nat × Char) : FixScanState :=
  if st.escapeNext then { st with escapeNext := false }
  else if ic.2 = '\\' then { st with escapeNext := true }
  else if ic.2 = '"' && !st.escapeNext then { st with inString := !st.inString }
  else if !st.inString then
    if ic.2 = '{' then { st with braceCount := st.braceCount + 1 }
    else if ic.2 = '}' then
      let bc := st.braceCount - 1
      if bc = 0 then { st with braceCount := bc, lastCompletePos := (ic.1 : ℤ) + 1 }
      else { st with braceCount := bc }
    else st
  else st

/-- `attempt_fix_truncated_json`: if the text starts with `[`, truncate it to
the end of the last complete top-level `{...}` object, drop a trailing comma,
and close the array; otherwise (or if no complete object was found) return
`None`. -/
def attempt_fix_truncated_json (json_text : List Char) : Option (List Char) :=
  if json_text.head? ≠ some '[' then none
  else
    let final := json_text.enum.foldl fixScanStep ⟨0, false, false, -1⟩
    if final.lastCompletePos > 0 then
      let truncated := json_text.take final.lastCompletePos.toNat
      let t2 := if truncated.getLast? = some ',' then truncated.dropLast else truncated
      if t2.getLast? = some ']' then some t2 else some (t2 ++ [']'])
    else none

/-! ## `extract_json_with_regex` (`src/common.py` lines 180-203) -/

/-- First match of `re.findall(r'\[.*?\]', s, re.DOTALL)`: the span from the
first `[` that is followed by a `]`, up to and including the first such `]`.
Returns `none` when the pattern has no match. -/
def firstBracketSpan (l : List Char) : Option (List Char) :=
  match l.dropWhile (fun c => c ≠ '[') with
  | [] => none
  | _ :: rest =>
    match rest.findIdx? (fun c => c = ']') with
    | none => none
    | some i => some ('[' :: rest.take (i + 1))

def countChar (c : Char) (l : List Char) : Nat := (l.filter (fun x => x = c)).length

/-- Python `s.rstrip('.,')`. -/
def rstripDotComma (l : List Char) : List Char :=
  (l.reverse.dropWhile (fun c => c = '.' || c = ',')).reverse

/-- `extract_json_with_regex`: find the first `[...]` span, re-clean it,
append `}` for any surplus of `{` over `}` (after stripping trailing `.`/`,`)
plus a final `]` if needed, then `json.loads` it.  With no span at all it
raises `json.JSONDecodeError("No valid JSON array found", ...)`. -/
def extract_json_with_regex (cleaned_response : List Char) : Except JsonErr JValue :=
  match firstBracketSpan cleaned_response with
  | none => .error .noJsonArrayFound
  | some m =>
    let t1 := collapseWs (m.map ctrlToSpace)
    let t2 :=
      if countChar '{' t1 > countChar '}' t1 then
        let missing := countChar '{' t1 - countChar '}' t1
        let t1' := rstripDotComma t1 ++ List.replicate missing '}'
        if t1'.getLast? = some ']' then t1' else t1' ++ [']']
      else t1
    jsonLoads t2

/-! ## `parse_story_ideas` (`src/common.py` lines 65-129) -/

/-- Lines 70-73: if the stripped text begins with a code-fence marker, remove
every occurrence of the marker(s) (`str.replace` replaces globally, not only
the outer fences) and strip again. -/
def stripFence (c0 : List Char) : List Char :=
  if ("```json".data).isPrefixOf c0 then
    pyStripChars (removeAll "```".data (removeAll "```json".data c0))
  else if ("```".data).isPrefixOf c0 then
    pyStripChars (removeAll "```".data c0)
  else c0

/-- Lines 68-81: strip, remove a leading code fence, replace `\n`/`\t`/`\r`
and all ASCII control characters by spaces, and collapse whitespace runs. -/
def cleanResponse (json_response : List Char) : List Char :=
  collapseWs (((stripFence (pyStripChars json_response)).map nlTabCrToSpace).map ctrlToSpace)

/-- Lines 84-104: direct `json.loads`, then — only when the failure message
contains `"Unterminated string"` or the cleaned text ends in `...` — the
truncation repair (whose own parse failure falls back to regex extraction),
otherwise regex extraction directly. -/
def ideasDataStage (cleaned_response : List Char) : Except JsonErr JValue :=
  match jsonLoads cleaned_response with
  | .ok v => .ok v
  | .error e =>
    if e = .unterminatedString || ("...".data).isSuffixOf cleaned_response then
      match attempt_fix_truncated_json cleaned_response with
      | some fixedText =>
        match jsonLoads fixedText with
        | .ok v => .ok v
        | .error _ => extract_json_with_regex cleaned_response
      | none => extract_json_with_regex cleaned_response
    else extract_json_with_regex cleaned_response

/-- Python exceptions that can cross function boundaries in this code.  The
`except (json.JSONDecodeError, KeyError, ValueError)` handler of
`parse_story_ideas` catches the first three kinds only. -/
inductive PyExc where
  | jsonDecodeError (kind : JsonErr)
  | keyError
  | valueError
  | typeError
  | attributeError
deriving DecidableEq, Repr

/-- Lines 106-124: require a list; for each element require a `dict` with
`title` and `body` keys, then `str(...).strip()` both values.  A non-dict
element raises `ValueError`; a missing key raises `KeyError`; both abort the
whole batch. -/
def validateIdeas : JArr → Except PyExc (List StoryIdea)
  | .nil => .ok []
  | .cons x rest =>
    match x with
    | .jobj m =>
      if m.hasKey "title".data && m.hasKey "body".data then
        let title := pyStripChars (pyStrVal ((m.get? "title".data).getD .jnull))
        let body := pyStripChars (pyStrVal ((m.get? "body".data).getD .jnull))
        match validateIdeas rest with
        | .ok ideas => .ok (⟨⟨title⟩, ⟨body⟩⟩ :: ideas)
        | .error e => .error e
      else .error .keyError
    | _ => .error .valueError

/-- Line 107: `if not isinstance(ideas_data, list): raise ValueError(...)`. -/
def validateStage (ideas_data : JValue) : Except PyExc (List StoryIdea) :=
  match ideas_data with
  | .jarr items => validateIdeas items
  | _ => .error .valueError

/-- The body of `parse_story_ideas`'s `try` block: clean, obtain the parsed
data through the fallback chain, validate. -/
def parseStoryIdeasBody (json_response : List Char) : Except PyExc (List StoryIdea) :=
  match ideasDataStage (cleanResponse json_response) with
  | .error e => .error (.jsonDecodeError e)
  | .ok v => validateStage v

/-- Exception kinds caught by the handler at line 126:
`(json.JSONDecodeError, KeyError, ValueError)`. -/
def isCaughtByParseHandler : PyExc → Bool
  | .jsonDecodeError _ => true
  | .keyError => true
  | .valueError => true
  | _ => false

/-- `parse_story_ideas`: run the body; the handler maps the caught exception
kinds to an empty list (plus a log message).  Any other exception kind would
escape to the caller. -/
def parse_story_ideas (json_response : String) : Except PyExc (List StoryIdea) :=
  match parseStoryIdeasBody json_response.data with
  | .ok ideas => .ok ideas
  | .error e => if isCaughtByParseHandler e then .ok [] else .error e

/-! ## `format_ideas_for_evaluation` (`src/common.py` lines 205-210) -/

def formatIdeaLine (i : Nat) (idea : StoryIdea) : String :=
  let t := idea.title
  let b := idea.body
  s!"{i}. 标题: {t}\n   故事: {b}\n\n"

/-- Number the ideas from 1 in a fixed textual block, then strip. -/
def format_ideas_for_evaluation (ideas : List StoryIdea) : String :=
  pyStrip (String.join ((ideas.enumFrom 1).map (fun p => formatIdeaLine p.1 p.2)))

/-! ## `StoryIdeaEvaluator` (`src/evaluators.py`)

The seven per-dimension judges are external LLM calls; they are modelled as an
oracle record of functions with the exact input fields each `dspy.Signature`
declares, returning a `(score_text, feedback_text)` pair or failing with an
exception.  The disk side of the pickle cache (`_load_cache`/`_save_cache`)
is I/O and is not modelled; the cache dictionary itself is the evaluator's
state.  The MD5 fingerprint of `_get_cache_key` is abstracted to the
canonical serialization string it hashes: the claims depend only on the
fingerprint being a deterministic function of that string. -/

/-- An exception escaping a judge call (network failure, bad response shape). -/
structure JudgeErr where
  msg : String
deriving DecidableEq, Repr

structure Judges where
  novelty_evaluator : String → String → Except JudgeErr (String × String)
  feasibility_evaluator : String → String → Except JudgeErr (String × String)
  structure_evaluator : String → Except JudgeErr (String × String)
  detail_evaluator : String → Except JudgeErr (String × String)
  logical_coherence_evaluator : String → String → Except JudgeErr (String × String)
  genre_evaluator : String → String → Except JudgeErr (String × String)
  engagement_evaluator : String → String → Except JudgeErr (String × String)

/-- The raw `(score, feedback)` outputs of the seven judge calls. -/
structure JudgeOutputs where
  novelty : String × String
  feasibility : String × String
  structural : String × String
  detail : String × String
  logical_coherence : String × String
  genre : String × String
  engagement : String × String
deriving DecidableEq, Repr

/-- Lines 116-155: the seven sequential judge calls; any raised exception
aborts the evaluation. -/
def runJudges (j : Judges) (request : BrainstormRequest) (formatted_ideas : String) :
    Except JudgeErr JudgeOutputs := do
  let nv ← j.novelty_evaluator request.genre formatted_ideas
  let fs ← j.feasibility_evaluator request.platform formatted_ideas
  let st ← j.structure_evaluator formatted_ideas
  let dt ← j.detail_evaluator formatted_ideas
  let lc ← j.logical_coherence_evaluator request.genre formatted_ideas
  let gn ← j.genre_evaluator request.genre formatted_ideas
  let en ← j.engagement_evaluator request.platform formatted_ideas
  return ⟨nv, fs, st, dt, lc, gn, en⟩

/-- Lines 166-185: the fixed per-dimension weights and the weighted overall
score. -/
def overallScore (novelty feasibility structural detail logical_coherence genre engagement : ℚ) : ℚ :=
  novelty * 0.18 + feasibility * 0.12 + structural * 0.08 + detail * 0.18 +
  logical_coherence * 0.16 + genre * 0.10 + engagement * 0.18

/-- The `(score, weight)` pairs of the aggregation, in source order. -/
def dimWeightPairs (novelty feasibility structural detail logical_coherence genre engagement : ℚ) :
    List (ℚ × ℚ) :=
  [(novelty, 0.18), (feasibility, 0.12), (structural, 0.08), (detail, 0.18),
   (logical_coherence, 0.16), (genre, 0.10), (engagement, 0.18)]

/-- `Σ score_i * weight_i` over a list of pairs. -/
def weightedSum (l : List (ℚ × ℚ)) : ℚ := (l.map (fun p => p.1 * p.2)).sum

/-! ### IEEE-754 binary64 model of the overall-score arithmetic

Python floats are IEEE-754 binary64 values.  `overallScore` above idealizes
the aggregation over exact rationals, which is adequate for every bound and
cache property, but not for the *exactness* of `overall_score` itself: there
the rounding of each `*` and `+` matters.  The aggregation is therefore also
modelled faithfully: a finite double is a canonical pair `m * 2 ^ e` with
`|m| ∈ [2^52, 2^53)` (or `m = 0`), and every operation rounds its exact
result to 53 significant bits, nearest, ties to even — exactly binary64's
behaviour for all values in the score range, which stays far from binary64's
overflow and subnormal thresholds (the model's exponent is unbounded). -/

/-- A finite binary64 value `m * 2 ^ e` in canonical form (`|m| ∈ [2^52, 2^53)`
or `m = 0`): rounding always returns this form, so equality of values is
equality of representations. -/
structure Fp where
  m : ℤ
  e : ℤ
deriving DecidableEq, Repr

/-- Fueled `⌊log₂ n⌋` (`0` for `n = 0`); fuel `n` always suffices because the
argument at least halves each step. -/
def log2Fuel : Nat → Nat → Nat
  | 0, _ => 0
  | fuel + 1, n => if 2 ≤ n then log2Fuel fuel (n / 2) + 1 else 0

def natLog2 (n : Nat) : Nat := log2Fuel n n

/-- The rational value of a modelled double. -/
def Fp.toRat (x : Fp) : ℚ :=
  if 0 ≤ x.e then (x.m : ℚ) * (2 : ℚ) ^ x.e.toNat
  else (x.m : ℚ) / (2 : ℚ) ^ (-x.e).toNat

/-- Round the integer-scaled value `M * 2 ^ E` to 53 significant bits,
nearest, ties to even, in canonical form: the result of a binary64 `*` or `+`
whose exact value is `M * 2 ^ E`. -/
def fpRoundInt (M E : ℤ) : Fp :=
  if M = 0 then ⟨0, 0⟩ else
  let s : ℤ := if M < 0 then -1 else 1
  let n := M.natAbs
  let k := natLog2 n
  if k ≤ 52 then ⟨s * ((n * 2 ^ (52 - k) : ℕ) : ℤ), E - ((52 - k : ℕ) : ℤ)⟩
  else
    let sh := k - 52
    let q := n / 2 ^ sh
    let r := n % 2 ^ sh
    let half := 2 ^ (sh - 1)
    let m := if r < half then q else if half < r then q + 1
      else if q % 2 = 0 then q else q + 1
    if m = 2 ^ 53 then ⟨s * 2 ^ 52, E + (sh : ℤ) + 1⟩ else ⟨s * (m : ℤ), E + (sh : ℤ)⟩

/-- Round the nonnegative rational `n / d` (`d ≠ 0`) to the nearest binary64
value, ties to even: the double denoted by a Python literal such as `0.18`,
or produced by parsing `"0.1"`. -/
def fpOfFrac (n d : ℕ) : Fp :=
  if n = 0 then ⟨0, 0⟩ else
  let t : ℤ := (natLog2 n : ℤ) - (natLog2 d : ℤ)
  let ok : Bool :=
    if 0 ≤ t then decide (d * 2 ^ t.toNat ≤ n) else decide (d ≤ n * 2 ^ (-t).toNat)
  let t' : ℤ := if ok then t else t - 1
  let e : ℤ := t' - 52
  let N : ℕ := if 0 ≤ e then n else n * 2 ^ (-e).toNat
  let D : ℕ := if 0 ≤ e then d * 2 ^ e.toNat else d
  let q := N / D
  let r := N % D
  let m := if 2 * r < D then q else if D < 2 * r then q + 1
    else if q % 2 = 0 then q else q + 1
  if m = 2 ^ 53 then ⟨2 ^ 52, e + 1⟩ else ⟨(m : ℤ), e⟩

/-- Binary64 multiplication: round the exact product. -/
def fpMul (x y : Fp) : Fp := fpRoundInt (x.m * y.m) (x.e + y.e)

/-- Binary64 addition: align to the smaller exponent, round the exact sum. -/
def fpAdd (x y : Fp) : Fp :=
  let e := min x.e y.e
  fpRoundInt (x.m * ((2 ^ (x.e - e).toNat : ℕ) : ℤ)
    + y.m * ((2 ^ (y.e - e).toNat : ℕ) : ℤ)) e

/-- The binary64 values of the seven weight literals (lines 167-175). -/
def w_novelty : Fp := fpOfFrac 18 100
def w_feasibility : Fp := fpOfFrac 12 100
def w_structure : Fp := fpOfFrac 8 100
def w_detail : Fp := fpOfFrac 18 100
def w_logical_coherence : Fp := fpOfFrac 16 100
def w_genre : Fp := fpOfFrac 10 100
def w_engagement : Fp := fpOfFrac 18 100

/-- Lines 177-185 in binary64: the source's expression
`novelty*w + feasibility*w + ... + engagement*w`, a left-to-right sum of the
seven rounded products, each `+` rounding again. -/
def overallScoreFp (novelty feasibility structural detail logical_coherence genre engagement :
    Fp) : Fp :=
  fpAdd (fpAdd (fpAdd (fpAdd (fpAdd (fpAdd
    (fpMul novelty w_novelty)
    (fpMul feasibility w_feasibility))
    (fpMul structural w_structure))
    (fpMul detail w_detail))
    (fpMul logical_coherence w_logical_coherence))
    (fpMul genre w_genre))
    (fpMul engagement w_engagement)

/-- `str(score)` for a score held in a Python float. -/
def scoreStr (q : ℚ) : String := ⟨ratFloatStr q⟩

/-- `f"{q:.1f}"`: fixed-point with one decimal, rounding half to even. -/
def formatFixed1 (q : ℚ) : String :=
  let scaled : ℚ := q * 10
  let fl : ℤ := ⌊scaled⌋
  let frac : ℚ := scaled - (fl : ℚ)
  let r : ℤ :=
    if frac > 1 / 2 then fl + 1
    else if frac < 1 / 2 then fl
    else if fl % 2 = 0 then fl else fl + 1
  (if r < 0 then "-" else "") ++ ⟨natDigits (r.natAbs / 10)⟩ ++ "." ++ ⟨natDigits (r.natAbs % 10)⟩

/-- Lines 188-213: the combined feedback report, in the fixed canonical
dimension order, stripped. -/
def combinedFeedback (outs : JudgeOutputs)
    (ns fs ss ds lcs gs es ov : ℚ) : String :=
  pyStrip ("\n评估结果详情：\n\n新颖性评分：" ++ scoreStr ns ++ "/10\n" ++ outs.novelty.2 ++
    "\n\n可行性评分：" ++ scoreStr fs ++ "/10\n" ++ outs.feasibility.2 ++
    "\n\n结构评分：" ++ scoreStr ss ++ "/10\n" ++ outs.structural.2 ++
    "\n\n详细程度评分：" ++ scoreStr ds ++ "/10\n" ++ outs.detail.2 ++
    "\n\n逻辑连贯性评分：" ++ scoreStr lcs ++ "/10\n" ++ outs.logical_coherence.2 ++
    "\n\n题材一致性评分：" ++ scoreStr gs ++ "/10\n" ++ outs.genre.2 ++
    "\n\n吸引力评分：" ++ scoreStr es ++ "/10\n" ++ outs.engagement.2 ++
    "\n\n总体评分：" ++ formatFixed1 ov ++ "/10\n")

/-- Lines 157-226: parse the seven scores, aggregate, build the result. -/
def buildResult (outs : JudgeOutputs) : EvaluationResult :=
  let novelty_score := _parse_score outs.novelty.1
  let feasibility_score := _parse_score outs.feasibility.1
  let structure_score := _parse_score outs.structural.1
  let detail_score := _parse_score outs.detail.1
  let logical_coherence_score := _parse_score outs.logical_coherence.1
  let genre_score := _parse_score outs.genre.1
  let engagement_score := _parse_score outs.engagement.1
  let overall_score := overallScore novelty_score feasibility_score structure_score
    detail_score logical_coherence_score genre_score engagement_score
  { novelty_score := novelty_score
    feasibility_score := feasibility_score
    structure_score := structure_score
    detail_score := detail_score
    logical_coherence_score := logical_coherence_score
    genre_score := genre_score
    engagement_score := engagement_score
    overall_score := overall_score
    feedback := combinedFeedback outs novelty_score feasibility_score structure_score
      detail_score logical_coherence_score genre_score engagement_score overall_score }

/-- `json.dumps` string escaping (with `ensure_ascii=False`). -/
def jsonEscapeChar (c : Char) : List Char :=
  if c = '"' then ['\\', '"']
  else if c = '\\' then ['\\', '\\']
  else if c = '\n' then ['\\', 'n']
  else if c = '\t' then ['\\', 't']
  else if c = '\r' then ['\\', 'r']
  else if c.toNat = 8 then ['\\', 'b']
  else if c.toNat = 12 then ['\\', 'f']
  else if c.toNat < 0x20 then
    ['\\', 'u', '0', '0',
     (if c.toNat / 16 < 10 then Char.ofNat (48 + c.toNat / 16) else Char.ofNat (87 + c.toNat / 16)),
     (if c.toNat % 16 < 10 then Char.ofNat (48 + c.toNat % 16) else Char.ofNat (87 + c.toNat % 16))]
  else [c]

def jsonDumpStr (s : String) : List Char :=
  '"' :: (s.data.map jsonEscapeChar).flatten ++ ['"']

/-- One idea as dumped with `sort_keys=True`: keys in order `body`, `title`. -/
def ideaDump (idea : StoryIdea) : List Char :=
  "\x7b\"body\": ".data ++ jsonDumpStr idea.body ++
  ", \"title\": ".data ++ jsonDumpStr idea.title ++ ['}']

/-- `StoryIdeaEvaluator._get_cache_key` (lines 93-102): canonical
`json.dumps(..., sort_keys=True, ensure_ascii=False)` of the ideas and the
request; the MD5 hex digest of this string is abstracted to the string
itself. -/
def _get_cache_key (ideas : List StoryIdea) (request : BrainstormRequest) : List Char :=
  "\x7b\"genre\": ".data ++ jsonDumpStr request.genre ++
  ", \"ideas\": [".data ++ joinCommaSpace (ideas.map ideaDump) ++ "]".data ++
  ", \"platform\": ".data ++ jsonDumpStr request.platform ++
  ", \"requirements\": ".data ++ jsonDumpStr request.requirements_section ++ "\x7d".data

/-- The evaluator's state: the in-memory evaluation cache dictionary. -/
structure StoryIdeaEvaluator where
  cache : List (List Char × EvaluationResult)
deriving DecidableEq, Repr

/-- `self.cache.get(cache_key)` on the dictionary. -/
def cacheLookup (cache : List (List Char × EvaluationResult)) (k : List Char) :
    Option EvaluationResult :=
  (cache.find? (fun p => p.1 = k)).map (fun p => p.2)

/-- `self.cache[cache_key] = result` on the dictionary. -/
def cacheInsert (cache : List (List Char × EvaluationResult)) (k : List Char)
    (v : EvaluationResult) : List (List Char × EvaluationResult) :=
  if cache.any (fun p => p.1 = k) then
    cache.map (fun p => if p.1 = k then (k, v) else p)
  else cache ++ [(k, v)]

/-- `StoryIdeaEvaluator.evaluate` (lines 104-232): return the cached result
for the fingerprint if present (no judge calls), otherwise run the seven
judges, aggregate, store, and return.  The returned `Nat` counts the judge
calls performed (`0` on a cache hit, `7` on a full evaluation). -/
def evaluate (j : Judges) (ev : StoryIdeaEvaluator) (ideas : List StoryIdea)
    (request : BrainstormRequest) :
    Except JudgeErr (EvaluationResult × StoryIdeaEvaluator × Nat) :=
  match cacheLookup ev.cache (_get_cache_key ideas request) with
  | some cached => .ok (cached, ev, 0)
  | none =>
    match runJudges j request (format_ideas_for_evaluation ideas) with
    | .error e => .error e
    | .ok outs =>
      .ok (buildResult outs,
        ⟨cacheInsert ev.cache (_get_cache_key ideas request) (buildResult outs)⟩, 7)

/-! ## `GroupedEvaluationMetrics` (`src/evaluators.py` lines 253-339) -/

/-- The `prediction` argument of a metric function: an iterable of ideas, a
string (excluded by `not isinstance(prediction, str)`), or a non-iterable. -/
inductive Prediction where
  | iterable (ideas : List StoryIdea)
  | strVal (s : String)
  | notIterable
deriving DecidableEq, Repr

/-- A `dspy.Example`: `requirements_section` may be absent
(`getattr(example, 'requirements_section', '')`). -/
structure DSPyExample where
  genre : String
  platform : String
  requirements_section : Option String
deriving DecidableEq, Repr

/-- `getattr(result, f'{metric_name}_score', 0)`. -/
def getScoreAttr (result : EvaluationResult) (metric_name : String) : ℚ :=
  if metric_name = "novelty" then result.novelty_score
  else if metric_name = "feasibility" then result.feasibility_score
  else if metric_name = "structure" then result.structure_score
  else if metric_name = "detail" then result.detail_score
  else if metric_name = "logical_coherence" then result.logical_coherence_score
  else if metric_name = "genre" then result.genre_score
  else if metric_name = "engagement" then result.engagement_score
  else 0

/-- `GroupedEvaluationMetrics.create_group_metric` (lines 271-314): the
returned `group_metric(example, prediction)` closure.  Non-iterable or string
predictions score `0.0`; any exception from the evaluation is caught by the
broad `except Exception` and also scores `0.0`; otherwise the `'overall'`
group returns `overall_score / 10.0` and other groups the plain average of
their member scores divided by `10.0`. -/
def create_group_metric (j : Judges) (evaluator : StoryIdeaEvaluator) (group_name : String)
    (metric_names : List String) (ex : DSPyExample) (prediction : Prediction) : ℚ :=
  match prediction with
  | .strVal _ => 0
  | .notIterable => 0
  | .iterable ideas =>
    match evaluate j evaluator ideas ⟨ex.genre, ex.platform, ex.requirements_section.getD ""⟩ with
    | .error _ => 0
    | .ok (result, _, _) =>
      if group_name = "overall" then result.overall_score / 10
      else
        if (metric_names.map (getScoreAttr result)).length > 0 then
          (metric_names.map (getScoreAttr result)).sum /
            ((metric_names.map (getScoreAttr result)).length : ℚ) / 10
        else 0

/-- The `single_group` dimension list (line 268). -/
def singleGroupNames : List String :=
  ["novelty", "feasibility", "structure", "detail", "logical_coherence", "genre", "engagement"]

/-- `create_evaluation_metric` (lines 330-334): the `'overall'` single-group
metric. -/
def create_evaluation_metric (j : Judges) (evaluator : StoryIdeaEvaluator)
    (ex : DSPyExample) (prediction : Prediction) : ℚ :=
  create_group_metric j evaluator "overall" singleGroupNames ex prediction

/-- Every cached result's overall score lies in the declared `[0, 10]` range
(holds for every cache the program itself builds, starting from the empty
one). -/
def CacheValid (ev : StoryIdeaEvaluator) : Prop :=
  ∀ p ∈ ev.cache, 0 ≤ p.2.overall_score ∧ p.2.overall_score ≤ 10

instance exceptDecEq {ε α : Type} [DecidableEq ε] [DecidableEq α] :
    DecidableEq (Except ε α) := fun x y =>
  match x, y with
  | .ok a, .ok b => if h : a = b then .isTrue (by rw [h]) else .isFalse (by simp [h])
  | .error e, .error f => if h : e = f then .isTrue (by rw [h]) else .isFalse (by simp [h])
  | .ok _, .error _ => .isFalse (by simp)
  | .error _, .ok _ => .isFalse (by simp)

/-- An array element that makes the validation loop raise: not a dict, or a
dict missing the `title` or `body` key. -/
def elemInvalid (v : JValue) : Bool :=
  match v with
  | .jobj m => !(m.hasKey "title".data && m.hasKey "body".data)
  | _ => true

/-- Some element of the parsed array is invalid. -/
def hasBadElem : JArr → Bool
  | .nil => false
  | .cons v t => elemInvalid v || hasBadElem t

/-- The parsed value of `[{"title":"A","body":"B"},{"title":"C"}]`. -/
def badBatchItems : JArr :=
  .cons (.jobj (.cons "title".data (.jstr "A".data) (.cons "body".data (.jstr "B".data) .nil)))
    (.cons (.jobj (.cons "title".data (.jstr "C".data) .nil)) .nil)

/-! Concrete judge stubs, ideas and request used by witnesses. -/

def demoJudges : Judges :=
  { novelty_evaluator := fun _ _ => .ok ("8", "不错")
    feasibility_evaluator := fun _ _ => .ok ("7", "可行")
    structure_evaluator := fun _ => .ok ("9", "清晰")
    detail_evaluator := fun _ => .ok ("8", "详细")
    logical_coherence_evaluator := fun _ _ => .ok ("7", "连贯")
    genre_evaluator := fun _ _ => .ok ("8", "一致")
    engagement_evaluator := fun _ _ => .ok ("9", "吸引") }

def demoIdeas : List StoryIdea := [⟨"重逢", "两人重逢"⟩]

def demoReq : BrainstormRequest := ⟨"爱情", "短视频", ""⟩

def demoEx : DSPyExample := ⟨"爱情", "短视频", some ""⟩

def demoOuts : JudgeOutputs :=
  ⟨("8", "不错"), ("7", "可行"), ("9", "清晰"), ("8", "详细"),
   ("7", "连贯"), ("8", "一致"), ("9", "吸引")⟩

def demoResult : EvaluationResult := buildResult demoOuts

def demoKey : List Char := _get_cache_key demoIdeas demoReq

def demoSt : StoryIdeaEvaluator := ⟨[(demoKey, demoResult)]⟩

/-! Canonical renderings of well-formed `{title, body}` arrays (C1). -/

/-- A string value usable in a JSON literal without escaping: it contains no
quote and no backslash. -/
def plainValue (l : List Char) : Bool := l.all (fun c => !(c = '"' || c = '\\'))

/-- The JSON text `{"title":"<t>","body":"<b>"}`. -/
def renderObj (t b : List Char) : List Char :=
  '{' :: '"' :: 't' :: 'i' :: 't' :: 'l' :: 'e' :: '"' :: ':' :: '"' ::
    (t ++ '"' :: ',' :: '"' :: 'b' :: 'o' :: 'd' :: 'y' :: '"' :: ':' :: '"' ::
      (b ++ '"' :: '}' :: []))

/-- Comma-separated object renderings. -/
def renderObjs : List (String × String) → List Char
  | [] => []
  | [p] => renderObj p.1.data p.2.data
  | p :: q :: rest => renderObj p.1.data p.2.data ++ ',' :: renderObjs (q :: rest)

/-- The JSON text `[{"title":...,"body":...}, ...]`. -/
def renderIdeasJson (pairs : List (String × String)) : String :=
  ⟨'[' :: renderObjs pairs ++ [']']⟩

/-- The value normalization the cleaning pipeline applies inside string
literals: `\n`/`\t`/`\r` and control characters to spaces, whitespace runs
collapsed. -/
def normalizeWs (l : List Char) : List Char :=
  collapseWs ((l.map nlTabCrToSpace).map ctrlToSpace)

/-- Normalization followed by the validation-stage trim. -/
def normTrim (s : String) : String := ⟨pyStripChars (normalizeWs s.data)⟩

/-- A pair with both components whitespace-normalized. -/
def normPair (p : String × String) : String × String :=
  (⟨normalizeWs p.1.data⟩, ⟨normalizeWs p.2.data⟩)

/-- The parsed value of one rendered object. -/
def objVal (p : String × String) : JValue :=
  .jobj (.cons "title".data (.jstr p.1.data) (.cons "body".data (.jstr p.2.data) .nil))

/-- `renderObj` with an explicit continuation `tail`, in right-nested form. -/
def renderObjT (t b tail : List Char) : List Char :=
  '{' :: '"' :: 't' :: 'i' :: 't' :: 'l' :: 'e' :: '"' :: ':' :: '"' ::
    (t ++ '"' :: ',' :: '"' :: 'b' :: 'o' :: 'd' :: 'y' :: '"' :: ':' :: '"' ::
      (b ++ '"' :: '}' :: tail))

/-- `renderObjs` with an explicit continuation `tail`. -/
def renderObjsT : List (String × String) → List Char → List Char
  | [], tail => tail
  | [p], tail => renderObjT p.1.data p.2.data tail
  | p :: q :: rest, tail => renderObjT p.1.data p.2.data (',' :: renderObjsT (q :: rest) tail)

/-! ## Theorems -/

set_option maxRecDepth 16384

/-- Shared helper: `_parse_score` always lands in `[0, 10]`. -/
theorem parse_score_bounds (s : String) : 0 ≤ _parse_score s ∧ _parse_score s ≤ 10 := by
  unfold _parse_score
  cases h : extractFirstNumber s.data with
  | none => norm_num
  | some v =>
    exact ⟨le_min (le_max_right _ 0) (by norm_num), min_le_right _ _⟩

/-- C3 (amended): every score `_parse_score` produces lies in the *clamping
range actually used by the code*, `[0.0, 10.0]` (`min(max(score, 0.0), 10.0)`,
not the `[1.0, 10.0]` range the claim states); an unparseable score defaults
to the midpoint `5.0`; `"15"` clamps to `10.0`; and `"-3"` yields `3.0` (the
extraction regex `(\d+(?:\.\d+)?)` has no sign, so the minus sign is
dropped rather than the value clamped to `1.0`). -/
theorem parse_score_clamped_range (s : String) :
    (0 ≤ _parse_score s ∧ _parse_score s ≤ 10) ∧
    (extractFirstNumber s.data = none → _parse_score s = 5) ∧
    _parse_score "15" = 10 ∧ _parse_score "-3" = 3 := by
  refine ⟨parse_score_bounds s, fun h => ?_, ?_, ?_⟩
  · unfold _parse_score
    rw [h]
  · have h15 : _parse_score "15" = min (max ((15 : ℕ) : ℚ) 0) 10 := rfl
    rw [h15]
    norm_num
  · have h3 : _parse_score "-3" = min (max ((3 : ℕ) : ℚ) 0) 10 := rfl
    rw [h3]
    norm_num

/-- C3 witness: a concrete unparseable score text hits the midpoint default. -/
theorem parse_score_clamped_range_witness :
    extractFirstNumber "N/A".data = none ∧ _parse_score "N/A" = 5 :=
  ⟨by decide, (parse_score_clamped_range "N/A").2.1 (by decide)⟩

/-- C3 counterexample: the claim says a score text with a number outside
`[1, 10]` such as `"-3"` clamps to `1.0` and that every produced score lies
in `[1.0, 10.0]`; in fact `"-3"` yields `3.0` and `"0.5"` yields `0.5`,
below the claimed lower bound. -/
theorem parse_score_below_claimed_lower_bound :
    _parse_score "-3" = 3 ∧ _parse_score "0.5" = 1 / 2 ∧ ¬(1 ≤ _parse_score "0.5") := by
  have h3 : _parse_score "-3" = min (max ((3 : ℕ) : ℚ) 0) 10 := rfl
  have h05 : _parse_score "0.5" =
      min (max (((0 : ℕ) : ℚ) + ((5 : ℕ) : ℚ) / (10 : ℚ) ^ (1 : ℕ)) 0) 10 := rfl
  rw [h3, h05]
  norm_num

/-- C4 (amended): the truncation repair runs only when the initial parse
fails with an unterminated string (or the cleaned text ends in `...`).  The
spec's example input — cut immediately after a complete second object — fails
with a missing-delimiter error instead, skips the repair, finds no complete
`[...]` span in the regex fallback, and returns the empty list; the same
input cut *inside* the second object's last string value does take the repair
path and yields exactly the complete preceding idea `("A", "B")`. -/
theorem truncated_repair_conditions :
    parse_story_ideas "```json\n[\x7b\"title\":\"A\",\"body\":\"B\"\x7d,\x7b\"title\":\"C\",\"body\":\"D\"\x7d"
      = .ok [] ∧
    parse_story_ideas "```json\n[\x7b\"title\":\"A\",\"body\":\"B\"\x7d,\x7b\"title\":\"C\",\"body\":\"D"
      = .ok [⟨"A", "B"⟩] := by
  exact ⟨by decide, by decide⟩

/-- C4 counterexample: on the spec's example input
`'```json\n[{"title":"A","body":"B"},{"title":"C","body":"D"}'` the function
returns the empty list, not the two ideas `("A","B")`, `("C","D")` the claim
promises. -/
theorem truncated_example_yields_empty :
    parse_story_ideas "```json\n[\x7b\"title\":\"A\",\"body\":\"B\"\x7d,\x7b\"title\":\"C\",\"body\":\"D\"\x7d"
      = .ok [] ∧
    ([] : List StoryIdea) ≠ [⟨"A", "B"⟩, ⟨"C", "D"⟩] := by
  exact ⟨by decide, by decide⟩

/-- C1 counterexample: on the well-formed array `[{"title":"a  b","body":"c"}]`
the parser returns title `"a b"` — the run of two spaces inside the string
value is collapsed by the pre-parse whitespace normalization — whereas the
claim promises the value after trimming only, `"a  b"`. -/
theorem internal_whitespace_collapsed :
    parse_story_ideas "[\x7b\"title\":\"a  b\",\"body\":\"c\"\x7d]" = .ok [⟨"a b", "c"⟩] ∧
    ("a b" : String) ≠ "a  b" := by
  exact ⟨by decide, by decide⟩

/-- C2 counterexample: a record whose title is empty after trimming is
returned, not dropped: `[{"title":"","body":"x"}]` yields one idea with an
empty title. -/
theorem empty_title_not_dropped :
    parse_story_ideas "[\x7b\"title\":\"\",\"body\":\"x\"\x7d]" = .ok [⟨"", "x"⟩] ∧
    (StoryIdea.mk "" "x").title.data = [] := by
  exact ⟨by decide, by decide⟩

/-! ### Helper lemmas about `dropWhile` and stripping -/

theorem dropWhile_head_not (p : Char → Bool) :
    ∀ (l : List Char) (c : Char), (l.dropWhile p).head? = some c → p c = false := by
  intro l
  induction l with
  | nil => intro c h; simp at h
  | cons a t ih =>
    intro c h
    rw [List.dropWhile_cons] at h
    by_cases hpa : p a = true
    · rw [if_pos hpa] at h
      exact ih c h
    · rw [if_neg hpa] at h
      simp only [List.head?_cons, Option.some.injEq] at h
      rw [← h]
      exact Bool.not_eq_true _ ▸ hpa

theorem dropWhile_eq_self_of_head (p : Char → Bool) (l : List Char)
    (h : ∀ c, l.head? = some c → p c = false) : l.dropWhile p = l := by
  cases l with
  | nil => rfl
  | cons a t =>
    have ha := h a rfl
    rw [List.dropWhile_cons, if_neg (by simp [ha])]

theorem getLast?_append_right (l₁ l₂ : List Char) (h : l₂ ≠ []) :
    (l₁ ++ l₂).getLast? = l₂.getLast? := by
  rw [List.getLast?_append]
  cases hl : l₂.getLast? with
  | none => exact absurd (List.getLast?_eq_none_iff.mp hl) h
  | some c => rfl

theorem pyStripChars_head_not (l : List Char) :
    ∀ c, (pyStripChars l).head? = some c → isPySpace c = false := by
  intro c h
  unfold pyStripChars at h
  rw [List.head?_reverse] at h
  have hne : ((l.dropWhile isPySpace).reverse.dropWhile isPySpace) ≠ [] := by
    intro hnil
    rw [hnil] at h
    cases h
  have h2 : ((l.dropWhile isPySpace).reverse).getLast? = some c := by
    rw [← List.takeWhile_append_dropWhile isPySpace (l.dropWhile isPySpace).reverse]
    rw [getLast?_append_right _ _ hne]
    exact h
  rw [List.getLast?_reverse] at h2
  exact dropWhile_head_not isPySpace _ c h2

theorem pyStripChars_last_not (l : List Char) :
    ∀ c, (pyStripChars l).getLast? = some c → isPySpace c = false := by
  intro c h
  unfold pyStripChars at h
  rw [List.getLast?_reverse] at h
  exact dropWhile_head_not isPySpace _ c h

theorem pyStripChars_eq_self (l : List Char)
    (h1 : ∀ c, l.head? = some c → isPySpace c = false)
    (h2 : ∀ c, l.getLast? = some c → isPySpace c = false) : pyStripChars l = l := by
  unfold pyStripChars
  rw [dropWhile_eq_self_of_head _ _ h1]
  rw [dropWhile_eq_self_of_head _ _
    (fun c hc => h2 c (by rw [← List.head?_reverse]; exact hc))]
  exact List.reverse_reverse l

theorem pyStripChars_idem (l : List Char) :
    pyStripChars (pyStripChars l) = pyStripChars l :=
  pyStripChars_eq_self _ (pyStripChars_head_not l) (pyStripChars_last_not l)

/-! ### Validation lemmas (C2, C5, C6) -/

theorem validateIdeas_strips :
    ∀ (a : JArr) (l : List StoryIdea), validateIdeas a = .ok l →
      ∀ i ∈ l, (∃ x, i.title = ⟨pyStripChars x⟩) ∧ (∃ y, i.body = ⟨pyStripChars y⟩)
  | .nil, l, h, i, hi => by
    simp only [validateIdeas, Except.ok.injEq] at h
    subst h
    simp at hi
  | .cons (.jobj m) t, l, h, i, hi => by
    simp only [validateIdeas] at h
    by_cases hk : (m.hasKey "title".data && m.hasKey "body".data) = true
    · rw [if_pos hk] at h
      cases hrec : validateIdeas t with
      | ok ideas =>
        rw [hrec] at h
        simp only [Except.ok.injEq] at h
        subst h
        rcases List.mem_cons.mp hi with hi1 | hi2
        · subst hi1
          exact ⟨⟨_, rfl⟩, ⟨_, rfl⟩⟩
        · exact validateIdeas_strips t ideas hrec i hi2
      | error e => rw [hrec] at h; cases h
    · rw [if_neg hk] at h; cases h
  | .cons .jnull _, _, h, _, _ => Except.noConfusion h
  | .cons (.jbool _) _, _, h, _, _ => Except.noConfusion h
  | .cons (.jint _) _, _, h, _, _ => Except.noConfusion h
  | .cons (.jfloat _) _, _, h, _, _ => Except.noConfusion h
  | .cons .jnan _, _, h, _, _ => Except.noConfusion h
  | .cons .jinf _, _, h, _, _ => Except.noConfusion h
  | .cons .jninf _, _, h, _, _ => Except.noConfusion h
  | .cons (.jstr _) _, _, h, _, _ => Except.noConfusion h
  | .cons (.jarr _) _, _, h, _, _ => Except.noConfusion h

theorem validateIdeas_error_caught :
    ∀ (a : JArr) (e : PyExc), validateIdeas a = .error e → isCaughtByParseHandler e = true
  | .nil, _, h => Except.noConfusion h
  | .cons (.jobj m) t, e, h => by
    simp only [validateIdeas] at h
    by_cases hk : (m.hasKey "title".data && m.hasKey "body".data) = true
    · rw [if_pos hk] at h
      cases hrec : validateIdeas t with
      | ok ideas => rw [hrec] at h; cases h
      | error e2 =>
        rw [hrec] at h
        injection h with h2
        rw [← h2]
        exact validateIdeas_error_caught t e2 hrec
    · rw [if_neg hk] at h
      injection h with h2
      subst h2
      rfl
  | .cons .jnull _, _, h => by injection h with h2; subst h2; rfl
  | .cons (.jbool _) _, _, h => by injection h with h2; subst h2; rfl
  | .cons (.jint _) _, _, h => by injection h with h2; subst h2; rfl
  | .cons (.jfloat _) _, _, h => by injection h with h2; subst h2; rfl
  | .cons .jnan _, _, h => by injection h with h2; subst h2; rfl
  | .cons .jinf _, _, h => by injection h with h2; subst h2; rfl
  | .cons .jninf _, _, h => by injection h with h2; subst h2; rfl
  | .cons (.jstr _) _, _, h => by injection h with h2; subst h2; rfl
  | .cons (.jarr _) _, _, h => by injection h with h2; subst h2; rfl

theorem validateStage_error_caught (v : JValue) (e : PyExc)
    (h : validateStage v = .error e) : isCaughtByParseHandler e = true := by
  cases v with
  | jarr items => exact validateIdeas_error_caught items e h
  | jnull => injection h with h2; subst h2; rfl
  | jbool b => injection h with h2; subst h2; rfl
  | jint n => injection h with h2; subst h2; rfl
  | jfloat q => injection h with h2; subst h2; rfl
  | jnan => injection h with h2; subst h2; rfl
  | jinf => injection h with h2; subst h2; rfl
  | jninf => injection h with h2; subst h2; rfl
  | jstr s => injection h with h2; subst h2; rfl
  | jobj m => injection h with h2; subst h2; rfl

theorem parseStoryIdeasBody_error_caught (s : List Char) (e : PyExc)
    (h : parseStoryIdeasBody s = .error e) : isCaughtByParseHandler e = true := by
  unfold parseStoryIdeasBody at h
  cases hst : ideasDataStage (cleanResponse s) with
  | error e2 =>
    rw [hst] at h
    injection h with h2
    subst h2
    rfl
  | ok v =>
    rw [hst] at h
    exact validateStage_error_caught v e h

/-- C6 (confirmed): for every input string, `parse_story_ideas` returns
normally with a (possibly empty) list of ideas; every exception its body can
raise is one of the kinds caught by its handler, which maps them to the empty
list.  (Resource-exhaustion exceptions such as `RecursionError` on
pathologically nested input are outside this model.) -/
theorem parse_story_ideas_never_raises (s : String) :
    ∃ ideas, parse_story_ideas s = .ok ideas := by
  cases hb : parseStoryIdeasBody s.data with
  | ok l => exact ⟨l, by simp only [parse_story_ideas, hb]⟩
  | error e =>
    refine ⟨[], ?_⟩
    have hc := parseStoryIdeasBody_error_caught s.data e hb
    simp only [parse_story_ideas, hb, hc, if_true]

theorem validateIdeas_error_of_bad :
    ∀ a : JArr, hasBadElem a = true → ∃ e, validateIdeas a = .error e ∧
      isCaughtByParseHandler e = true
  | .nil, h => by cases h
  | .cons (.jobj m) t, h => by
    simp only [hasBadElem, Bool.or_eq_true] at h
    by_cases hk : (m.hasKey "title".data && m.hasKey "body".data) = true
    · have h2 : hasBadElem t = true := by
        rcases h with h1 | h2
        · simp [elemInvalid, hk] at h1
        · exact h2
      obtain ⟨e, he, hec⟩ := validateIdeas_error_of_bad t h2
      refine ⟨e, ?_, hec⟩
      simp only [validateIdeas]
      rw [if_pos hk, he]
    · refine ⟨.keyError, ?_, rfl⟩
      simp only [validateIdeas]
      rw [if_neg hk]
  | .cons .jnull _, _ => ⟨.valueError, rfl, rfl⟩
  | .cons (.jbool _) _, _ => ⟨.valueError, rfl, rfl⟩
  | .cons (.jint _) _, _ => ⟨.valueError, rfl, rfl⟩
  | .cons (.jfloat _) _, _ => ⟨.valueError, rfl, rfl⟩
  | .cons .jnan _, _ => ⟨.valueError, rfl, rfl⟩
  | .cons .jinf _, _ => ⟨.valueError, rfl, rfl⟩
  | .cons .jninf _, _ => ⟨.valueError, rfl, rfl⟩
  | .cons (.jstr _) _, _ => ⟨.valueError, rfl, rfl⟩
  | .cons (.jarr _) _, _ => ⟨.valueError, rfl, rfl⟩

/-- C5 (confirmed): whenever the parsed data is an array containing at least
one element that is not an object or lacks the `title`/`body` keys, the whole
batch is rejected: `parse_story_ideas` returns the empty list, not the valid
elements. -/
theorem whole_batch_rejection (s : String) (items : JArr)
    (hparse : ideasDataStage (cleanResponse s.data) = .ok (.jarr items))
    (hbad : hasBadElem items = true) :
    parse_story_ideas s = .ok [] := by
  obtain ⟨e, he, hcaught⟩ := validateIdeas_error_of_bad items hbad
  have hv : validateStage (JValue.jarr items) = .error e := he
  have hbody : parseStoryIdeasBody s.data = .error e := by
    unfold parseStoryIdeasBody
    rw [hparse]
    exact hv
  simp only [parse_story_ideas, hbody, hcaught, if_true]

/-- C5 witness: the concrete batch `[{"title":"A","body":"B"},{"title":"C"}]`
(second element missing `body`) parses to an array with a bad element and the
function returns the empty list. -/
theorem whole_batch_rejection_witness :
    ideasDataStage (cleanResponse ("[\x7b\"title\":\"A\",\"body\":\"B\"\x7d,\x7b\"title\":\"C\"\x7d]").data)
      = .ok (.jarr badBatchItems) ∧
    hasBadElem badBatchItems = true ∧
    parse_story_ideas "[\x7b\"title\":\"A\",\"body\":\"B\"\x7d,\x7b\"title\":\"C\"\x7d]" = .ok [] :=
  ⟨rfl, rfl, whole_batch_rejection _ badBatchItems rfl rfl⟩

/-- C2 (amended): every `StoryIdea` returned by `parse_story_ideas` has
whitespace-trimmed `title` and `body` (stripping them again changes nothing);
however — contrary to the original claim — records whose trimmed `title` or
`body` is empty are returned as-is, not dropped (see the counterexample). -/
theorem returned_ideas_are_trimmed (s : String) (l : List StoryIdea)
    (h : parse_story_ideas s = .ok l) :
    ∀ i ∈ l, pyStrip i.title = i.title ∧ pyStrip i.body = i.body := by
  intro i hi
  cases hb : parseStoryIdeasBody s.data with
  | error e =>
    have hc := parseStoryIdeasBody_error_caught s.data e hb
    simp only [parse_story_ideas, hb, hc, if_true, Except.ok.injEq] at h
    subst h
    simp at hi
  | ok l2 =>
    simp only [parse_story_ideas, hb, Except.ok.injEq] at h
    subst h
    unfold parseStoryIdeasBody at hb
    cases hst : ideasDataStage (cleanResponse s.data) with
    | error e => rw [hst] at hb; cases hb
    | ok v =>
      rw [hst] at hb
      cases v with
      | jarr items =>
        obtain ⟨⟨x, hx⟩, ⟨y, hy⟩⟩ := validateIdeas_strips items l2 hb i hi
        constructor
        · rw [hx]
          show (⟨pyStripChars (pyStripChars x)⟩ : String) = _
          rw [pyStripChars_idem]
        · rw [hy]
          show (⟨pyStripChars (pyStripChars y)⟩ : String) = _
          rw [pyStripChars_idem]
      | jnull => cases hb
      | jbool b => cases hb
      | jint n => cases hb
      | jfloat q => cases hb
      | jnan => cases hb
      | jinf => cases hb
      | jninf => cases hb
      | jstr s2 => cases hb
      | jobj m => cases hb

/-- C2 witness: a concrete input with padded values comes back trimmed, and
re-trimming the returned idea is the identity. -/
theorem returned_ideas_are_trimmed_witness :
    parse_story_ideas "[\x7b\"title\":\" A \",\"body\":\" B\"\x7d]" = .ok [⟨"A", "B"⟩] ∧
    (pyStrip "A" = "A" ∧ pyStrip "B" = "B") :=
  ⟨by decide,
   returned_ideas_are_trimmed "[\x7b\"title\":\" A \",\"body\":\" B\"\x7d]" [⟨"A", "B"⟩]
     (by decide) ⟨"A", "B"⟩ (by simp)⟩

/-- C7 counterexample: fence stripping removes *every* occurrence of the
marker, so a payload whose string value contains ```` ```json ```` parses
differently with and without the outer fences. -/
theorem fence_marker_inside_value_mangled :
    parse_story_ideas ("```json\n" ++ "[\x7b\"title\":\"x```json y\",\"body\":\"b\"\x7d]" ++ "\n```")
      = .ok [⟨"x y", "b"⟩] ∧
    parse_story_ideas "[\x7b\"title\":\"x```json y\",\"body\":\"b\"\x7d]"
      = .ok [⟨"x```json y", "b"⟩] ∧
    (StoryIdea.mk "x y" "b") ≠ ⟨"x```json y", "b"⟩ := by
  exact ⟨by decide, by decide, by decide⟩

/-! ### Aggregation and metric theorems (C8, C9, C10) -/

/-- C10 (amended): the seven fixed weights sum to `1.0` exactly, so over
*exact rational arithmetic* all-equal scores `X` aggregate to exactly `X`,
and the weighted sum is invariant under any permutation of the
`(score, weight)` pairs.  In the program's IEEE-754 binary64 arithmetic the
claimed exact equality holds for every integral score `X ∈ {0, ..., 10}`
(where every intermediate rounding is exact in aggregate), but not for
dimension scores in general: see the counterexample at `X = 0.1`. -/
theorem overall_score_weighted_rounding :
    (∀ X : ℚ, overallScore X X X X X X X = X) ∧
    (∀ (n f st d lc g e : ℚ) (l : List (ℚ × ℚ)),
      l.Perm (dimWeightPairs n f st d lc g e) →
      weightedSum l = overallScore n f st d lc g e) ∧
    (∀ i : Fin 11, overallScoreFp (fpOfFrac i.val 1) (fpOfFrac i.val 1) (fpOfFrac i.val 1)
      (fpOfFrac i.val 1) (fpOfFrac i.val 1) (fpOfFrac i.val 1) (fpOfFrac i.val 1)
      = fpOfFrac i.val 1) := by
  refine ⟨?_, ?_, by decide⟩
  · intro X
    unfold overallScore
    ring
  · intro n f st d lc g e l hperm
    have h1 : weightedSum l = weightedSum (dimWeightPairs n f st d lc g e) :=
      List.Perm.sum_eq (List.Perm.map _ hperm)
    rw [h1]
    unfold weightedSum dimWeightPairs overallScore
    simp only [List.map_cons, List.map_nil, List.sum_cons, List.sum_nil]
    ring

/-- C10 witness: reversing the supplied pairs leaves the exact weighted sum
unchanged at concrete scores, and the binary64 aggregation of seven integral
scores `7.0` is exactly `7.0`. -/
theorem overall_score_weighted_rounding_witness :
    weightedSum ((dimWeightPairs 7 6 5 9 8 4 10).reverse) = overallScore 7 6 5 9 8 4 10 ∧
    overallScoreFp (fpOfFrac 7 1) (fpOfFrac 7 1) (fpOfFrac 7 1) (fpOfFrac 7 1)
      (fpOfFrac 7 1) (fpOfFrac 7 1) (fpOfFrac 7 1) = fpOfFrac 7 1 :=
  ⟨overall_score_weighted_rounding.2.1 7 6 5 9 8 4 10 _
      ((dimWeightPairs 7 6 5 9 8 4 10).reverse_perm),
    overall_score_weighted_rounding.2.2 ⟨7, by omega⟩⟩

/-- C10 counterexample: the program computes `overall_score` in binary64, in
which the claimed exact equality fails.  `_parse_score("0.1")` yields the
unclamped score `0.1` — as a double the value `7205759403792794 * 2 ^ (-56)`
— and aggregating seven copies of it gives `7205759403792793 * 2 ^ (-56)`,
one ulp *below* the scores, a genuinely different value; over exact
rationals the aggregate would be exactly `0.1`. -/
theorem overall_score_ieee_ulp_miss :
    _parse_score "0.1" = 1 / 10 ∧
    fpOfFrac 1 10 = ⟨7205759403792794, -56⟩ ∧
    overallScoreFp (fpOfFrac 1 10) (fpOfFrac 1 10) (fpOfFrac 1 10) (fpOfFrac 1 10)
      (fpOfFrac 1 10) (fpOfFrac 1 10) (fpOfFrac 1 10) = ⟨7205759403792793, -56⟩ ∧
    overallScoreFp (fpOfFrac 1 10) (fpOfFrac 1 10) (fpOfFrac 1 10) (fpOfFrac 1 10)
      (fpOfFrac 1 10) (fpOfFrac 1 10) (fpOfFrac 1 10) ≠ fpOfFrac 1 10 ∧
    (Fp.toRat ⟨7205759403792793, -56⟩ ≠ Fp.toRat ⟨7205759403792794, -56⟩) ∧
    overallScore (1 / 10) (1 / 10) (1 / 10) (1 / 10) (1 / 10) (1 / 10) (1 / 10)
      = 1 / 10 := by
  refine ⟨?_, by decide, by decide, by decide, ?_, by unfold overallScore; norm_num⟩
  · have h : _parse_score "0.1"
        = min (max (((0 : ℕ) : ℚ) + ((1 : ℕ) : ℚ) / (10 : ℚ) ^ (1 : ℕ)) 0) 10 := rfl
    rw [h]
    norm_num
  · unfold Fp.toRat
    norm_num [show Int.toNat 56 = 56 from rfl]

theorem lookup_map_insert :
    ∀ (c : List (List Char × EvaluationResult)) (k : List Char) (v : EvaluationResult),
      c.any (fun p => p.1 = k) = true →
      cacheLookup (c.map (fun p => if p.1 = k then (k, v) else p)) k = some v
  | [], _, _, h => by simp at h
  | p :: t, k, v, h => by
    simp only [List.map_cons]
    by_cases hp : p.1 = k
    · rw [if_pos hp]
      unfold cacheLookup
      rw [List.find?_cons_of_pos _ (by simp)]
      rfl
    · rw [if_neg hp]
      have ht : t.any (fun p => p.1 = k) = true := by
        simp only [List.any_cons, Bool.or_eq_true] at h
        rcases h with h1 | h2
        · exact absurd (of_decide_eq_true h1) hp
        · exact h2
      have hrec := lookup_map_insert t k v ht
      unfold cacheLookup at hrec ⊢
      rw [List.find?_cons_of_neg _ (by simp [hp])]
      exact hrec

theorem lookup_append_single :
    ∀ (c : List (List Char × EvaluationResult)) (k : List Char) (v : EvaluationResult),
      c.any (fun p => p.1 = k) = false →
      cacheLookup (c ++ [(k, v)]) k = some v
  | [], k, v, _ => by
    unfold cacheLookup
    rw [List.nil_append, List.find?_cons_of_pos _ (by simp)]
    rfl
  | p :: t, k, v, h => by
    simp only [List.any_cons, Bool.or_eq_false_iff] at h
    have hp : ¬(p.1 = k) := by
      intro hk
      have := h.1
      rw [hk] at this
      simp at this
    rw [List.cons_append]
    unfold cacheLookup
    rw [List.find?_cons_of_neg _ (by simp [hp])]
    have hrec := lookup_append_single t k v h.2
    unfold cacheLookup at hrec
    exact hrec

/-- Writing a result under a key makes it the value subsequent lookups of
that key return. -/
theorem cacheLookup_cacheInsert (c : List (List Char × EvaluationResult))
    (k : List Char) (v : EvaluationResult) :
    cacheLookup (cacheInsert c k v) k = some v := by
  unfold cacheInsert
  by_cases h : c.any (fun p => p.1 = k) = true
  · rw [if_pos h]
    exact lookup_map_insert c k v h
  · rw [if_neg h]
    exact lookup_append_single c k v (Bool.not_eq_true _ ▸ h)

/-- C9 (confirmed): after any successful evaluation, evaluating the very same
ideas and request again against the resulting evaluator state returns the
identical `EvaluationResult`, leaves the state unchanged, and performs zero
judge calls (the fingerprint hits the cache). -/
theorem evaluate_cache_roundtrip (j : Judges) (ev : StoryIdeaEvaluator)
    (ideas : List StoryIdea) (request : BrainstormRequest)
    (r : EvaluationResult) (ev2 : StoryIdeaEvaluator) (n : Nat)
    (h : evaluate j ev ideas request = .ok (r, ev2, n)) :
    evaluate j ev2 ideas request = .ok (r, ev2, 0) := by
  unfold evaluate at h ⊢
  cases hl : cacheLookup ev.cache (_get_cache_key ideas request) with
  | some cached =>
    rw [hl] at h
    simp only [Except.ok.injEq, Prod.mk.injEq] at h
    obtain ⟨h1, h2, _⟩ := h
    rw [← h2, hl, h1]
  | none =>
    rw [hl] at h
    cases hj : runJudges j request (format_ideas_for_evaluation ideas) with
    | error e => rw [hj] at h; cases h
    | ok outs =>
      rw [hj] at h
      simp only [Except.ok.injEq, Prod.mk.injEq] at h
      obtain ⟨h1, h2, _⟩ := h
      rw [← h2]
      rw [show (⟨cacheInsert ev.cache (_get_cache_key ideas request) (buildResult outs)⟩ :
        StoryIdeaEvaluator).cache = cacheInsert ev.cache (_get_cache_key ideas request)
        (buildResult outs) from rfl]
      rw [cacheLookup_cacheInsert, h1]

/-- C9 witness: one full evaluation against stub judges, then the replay from
the produced state returns the identical result with zero judge calls. -/
theorem evaluate_cache_roundtrip_witness :
    evaluate demoJudges demoSt demoIdeas demoReq = .ok (demoResult, demoSt, 0) :=
  evaluate_cache_roundtrip demoJudges ⟨[]⟩ demoIdeas demoReq demoResult demoSt 7 rfl

/-- The weighted overall score of a freshly built result is in `[0, 10]`. -/
theorem buildResult_overall_bounds (outs : JudgeOutputs) :
    0 ≤ (buildResult outs).overall_score ∧ (buildResult outs).overall_score ≤ 10 := by
  obtain ⟨h1a, h1b⟩ := parse_score_bounds outs.novelty.1
  obtain ⟨h2a, h2b⟩ := parse_score_bounds outs.feasibility.1
  obtain ⟨h3a, h3b⟩ := parse_score_bounds outs.structural.1
  obtain ⟨h4a, h4b⟩ := parse_score_bounds outs.detail.1
  obtain ⟨h5a, h5b⟩ := parse_score_bounds outs.logical_coherence.1
  obtain ⟨h6a, h6b⟩ := parse_score_bounds outs.genre.1
  obtain ⟨h7a, h7b⟩ := parse_score_bounds outs.engagement.1
  show 0 ≤ overallScore _ _ _ _ _ _ _ ∧ overallScore _ _ _ _ _ _ _ ≤ 10
  unfold overallScore
  constructor <;> nlinarith

/-- A member of a cache after an insert is an old member or the new pair. -/
theorem mem_cacheInsert (c : List (List Char × EvaluationResult))
    (k : List Char) (v : EvaluationResult) (p : List Char × EvaluationResult)
    (h : p ∈ cacheInsert c k v) : p ∈ c ∨ p.2 = v := by
  unfold cacheInsert at h
  by_cases ha : c.any (fun q => q.1 = k) = true
  · rw [if_pos ha] at h
    obtain ⟨q, hq, hqe⟩ := List.mem_map.mp h
    by_cases hqk : q.1 = k
    · rw [if_pos hqk] at hqe
      right
      rw [← hqe]
    · rw [if_neg hqk] at hqe
      left
      rw [← hqe]
      exact hq
  · rw [if_neg ha] at h
    rcases List.mem_append.mp h with h1 | h2
    · exact Or.inl h1
    · right
      rcases List.mem_singleton.mp h2 with rfl
      rfl

/-- A successful evaluation yields an overall score in `[0, 10]` whenever
every overall score already cached is in `[0, 10]`. -/
theorem evaluate_ok_overall_bounds (j : Judges) (ev : StoryIdeaEvaluator)
    (ideas : List StoryIdea) (request : BrainstormRequest)
    (r : EvaluationResult) (ev2 : StoryIdeaEvaluator) (n : Nat)
    (hvalid : CacheValid ev)
    (h : evaluate j ev ideas request = .ok (r, ev2, n)) :
    0 ≤ r.overall_score ∧ r.overall_score ≤ 10 := by
  unfold evaluate at h
  cases hl : cacheLookup ev.cache (_get_cache_key ideas request) with
  | some cached =>
    rw [hl] at h
    simp only [Except.ok.injEq, Prod.mk.injEq] at h
    obtain ⟨h1, _, _⟩ := h
    unfold cacheLookup at hl
    cases hf : ev.cache.find? (fun p => p.1 = _get_cache_key ideas request) with
    | none => rw [hf] at hl; cases hl
    | some q =>
      rw [hf] at hl
      injection hl with hl2
      have hmem : q ∈ ev.cache := List.mem_of_find?_eq_some hf
      have := hvalid q hmem
      rw [← h1, ← hl2]
      exact this
  | none =>
    rw [hl] at h
    cases hj : runJudges j request (format_ideas_for_evaluation ideas) with
    | error e => rw [hj] at h; cases h
    | ok outs =>
      rw [hj] at h
      simp only [Except.ok.injEq, Prod.mk.injEq] at h
      obtain ⟨h1, _, _⟩ := h
      rw [← h1]
      exact buildResult_overall_bounds outs

/-- Evaluation preserves validity of the cache (so `CacheValid` holds of
every state the program reaches from the empty cache). -/
theorem evaluate_preserves_cacheValid (j : Judges) (ev : StoryIdeaEvaluator)
    (ideas : List StoryIdea) (request : BrainstormRequest)
    (r : EvaluationResult) (ev2 : StoryIdeaEvaluator) (n : Nat)
    (hvalid : CacheValid ev)
    (h : evaluate j ev ideas request = .ok (r, ev2, n)) : CacheValid ev2 := by
  unfold evaluate at h
  cases hl : cacheLookup ev.cache (_get_cache_key ideas request) with
  | some cached =>
    rw [hl] at h
    simp only [Except.ok.injEq, Prod.mk.injEq] at h
    obtain ⟨_, h2, _⟩ := h
    rw [← h2]
    exact hvalid
  | none =>
    rw [hl] at h
    cases hj : runJudges j request (format_ideas_for_evaluation ideas) with
    | error e => rw [hj] at h; cases h
    | ok outs =>
      rw [hj] at h
      simp only [Except.ok.injEq, Prod.mk.injEq] at h
      obtain ⟨_, h2, _⟩ := h
      rw [← h2]
      intro p hp
      rcases mem_cacheInsert _ _ _ p hp with hold | hnew
      · exact hvalid p hold
      · rw [hnew]
        exact buildResult_overall_bounds outs

/-- The `'overall'` metric unfolded on an iterable prediction. -/
theorem metric_overall_eq (j : Judges) (evaluator : StoryIdeaEvaluator)
    (ex : DSPyExample) (ideas : List StoryIdea) :
    create_evaluation_metric j evaluator ex (.iterable ideas) =
      match evaluate j evaluator ideas ⟨ex.genre, ex.platform, ex.requirements_section.getD ""⟩ with
      | .error _ => (0 : ℚ)
      | .ok (result, _, _) => result.overall_score / 10 := by
  cases hev : evaluate j evaluator ideas ⟨ex.genre, ex.platform, ex.requirements_section.getD ""⟩ with
  | error e => simp only [create_evaluation_metric, create_group_metric, hev]
  | ok out =>
    obtain ⟨r, st, n⟩ := out
    simp only [create_evaluation_metric, create_group_metric, hev, if_pos]

/-- C8 (confirmed): for any judges, any valid evaluator state, any example
and any prediction, the `'overall'` metric produced by
`create_evaluation_metric`/`create_group_metric` lies in `[0, 1]`; it equals
`overall_score / 10` exactly when the evaluation succeeds, and `0.0` when the
prediction is a string or not iterable or the evaluation raises. -/
theorem create_evaluation_metric_normalized (j : Judges) (evaluator : StoryIdeaEvaluator)
    (ex : DSPyExample) (pred : Prediction) (hvalid : CacheValid evaluator) :
    (0 ≤ create_evaluation_metric j evaluator ex pred ∧
      create_evaluation_metric j evaluator ex pred ≤ 1) ∧
    (∀ ideas r st n, pred = .iterable ideas →
      evaluate j evaluator ideas ⟨ex.genre, ex.platform, ex.requirements_section.getD ""⟩
        = .ok (r, st, n) →
      create_evaluation_metric j evaluator ex pred = r.overall_score / 10) ∧
    (∀ ideas e, pred = .iterable ideas →
      evaluate j evaluator ideas ⟨ex.genre, ex.platform, ex.requirements_section.getD ""⟩
        = .error e →
      create_evaluation_metric j evaluator ex pred = 0) ∧
    ((pred = .notIterable ∨ ∃ s, pred = .strVal s) →
      create_evaluation_metric j evaluator ex pred = 0) := by
  cases pred with
  | strVal s =>
    have h0 : create_evaluation_metric j evaluator ex (.strVal s) = 0 := rfl
    rw [h0]
    refine ⟨⟨le_refl 0, by norm_num⟩, ?_, ?_, fun _ => rfl⟩
    · intro ideas r st n hpr
      cases hpr
    · intro ideas e hpr
      cases hpr
  | notIterable =>
    have h0 : create_evaluation_metric j evaluator ex .notIterable = 0 := rfl
    rw [h0]
    refine ⟨⟨le_refl 0, by norm_num⟩, ?_, ?_, fun _ => rfl⟩
    · intro ideas r st n hpr
      cases hpr
    · intro ideas e hpr
      cases hpr
  | iterable ideas =>
    rw [metric_overall_eq]
    refine ⟨?_, ?_, ?_, ?_⟩
    · cases he : evaluate j evaluator ideas
        ⟨ex.genre, ex.platform, ex.requirements_section.getD ""⟩ with
      | error e => exact ⟨le_refl 0, by norm_num⟩
      | ok out =>
        obtain ⟨r0, st0, n0⟩ := out
        have hb := evaluate_ok_overall_bounds j evaluator ideas _ r0 st0 n0 hvalid he
        constructor
        · exact div_nonneg hb.1 (by norm_num)
        · rw [div_le_one (by norm_num)]
          exact hb.2
    · intro ideas2 r st n hpr hok
      injection hpr with hpr2
      subst hpr2
      rw [hok]
    · intro ideas2 e hpr hok
      injection hpr with hpr2
      subst hpr2
      rw [hok]
    · intro hcontra
      rcases hcontra with h1 | ⟨s2, h2⟩
      · cases h1
      · cases h2

/-- C8 witness: at the stub judges with the empty (hence valid) cache, the
metric equals the produced overall score divided by ten. -/
theorem create_evaluation_metric_normalized_witness :
    (0 ≤ create_evaluation_metric demoJudges ⟨[]⟩ demoEx (.iterable demoIdeas) ∧
      create_evaluation_metric demoJudges ⟨[]⟩ demoEx (.iterable demoIdeas) ≤ 1) ∧
    create_evaluation_metric demoJudges ⟨[]⟩ demoEx (.iterable demoIdeas)
      = demoResult.overall_score / 10 :=
  ⟨(create_evaluation_metric_normalized demoJudges ⟨[]⟩ demoEx (.iterable demoIdeas)
      (fun p hp => absurd hp (List.not_mem_nil p))).1,
   (create_evaluation_metric_normalized demoJudges ⟨[]⟩ demoEx (.iterable demoIdeas)
      (fun p hp => absurd hp (List.not_mem_nil p))).2.1 demoIdeas demoResult demoSt 7 rfl rfl⟩

/-! ### Fence-stripping lemmas (C7) -/

theorem removeAllFuel_congr (pat : List Char) (hp : pat ≠ []) :
    ∀ (fuel : Nat) (l : List Char), l.length ≤ fuel →
      removeAllFuel fuel pat l = removeAll pat l := by
  intro fuel
  induction fuel using Nat.strong_induction_on with
  | _ fuel ih =>
    intro l hl
    cases l with
    | nil =>
      cases fuel with
      | zero => rfl
      | succ f => rfl
    | cons c rest =>
      cases fuel with
      | zero => simp at hl
      | succ f =>
        simp only [List.length_cons, Nat.add_le_add_iff_right] at hl
        have hp1 : 1 ≤ pat.length := by
          cases hpat : pat with
          | nil => exact absurd hpat hp
          | cons a as => simp
        by_cases hpre : pat.isPrefixOf (c :: rest) = true
        · have hstep1 : removeAllFuel (f + 1) pat (c :: rest)
              = removeAllFuel f pat ((c :: rest).drop pat.length) := by
            simp only [removeAllFuel]
            rw [if_pos ⟨hp, hpre⟩]
          have hstep2 : removeAll pat (c :: rest)
              = removeAllFuel rest.length pat ((c :: rest).drop pat.length) := by
            show removeAllFuel (rest.length + 1) pat (c :: rest) = _
            simp only [removeAllFuel]
            rw [if_pos ⟨hp, hpre⟩]
          have hdlen : ((c :: rest).drop pat.length).length ≤ rest.length := by
            simp only [List.length_drop, List.length_cons]
            omega
          rw [hstep1, hstep2]
          rw [ih f (Nat.lt_succ_self f) _ (le_trans hdlen hl)]
          rw [ih rest.length (Nat.lt_succ_of_le hl) _ hdlen]
        · have hstep1 : removeAllFuel (f + 1) pat (c :: rest)
              = c :: removeAllFuel f pat rest := by
            simp only [removeAllFuel]
            rw [if_neg (fun hc => hpre hc.2)]
          have hstep2 : removeAll pat (c :: rest)
              = c :: removeAllFuel rest.length pat rest := by
            show removeAllFuel (rest.length + 1) pat (c :: rest) = _
            simp only [removeAllFuel]
            rw [if_neg (fun hc => hpre hc.2)]
          rw [hstep1, hstep2]
          rw [ih f (Nat.lt_succ_self f) rest hl]
          rw [ih rest.length (Nat.lt_succ_of_le hl) rest (le_refl _)]

theorem removeAll_prefix (pat rest : List Char) (hp : pat ≠ []) :
    removeAll pat (pat ++ rest) = removeAll pat rest := by
  cases hpat : pat with
  | nil => exact absurd hpat hp
  | cons a as =>
    subst hpat
    show removeAllFuel ((as ++ rest).length + 1) (a :: as) (a :: (as ++ rest)) = _
    simp only [removeAllFuel]
    rw [if_pos ⟨hp, by rw [List.isPrefixOf_iff_prefix]; exact List.prefix_append _ _⟩]
    have hdrop : (a :: (as ++ rest)).drop (a :: as).length = rest := by
      show ((a :: as) ++ rest).drop (a :: as).length = rest
      exact List.drop_left _ _
    rw [hdrop]
    exact removeAllFuel_congr _ hp _ _ (by simp)

theorem removeAll_cons_skip (pat : List Char) (c : Char) (rest : List Char)
    (h : ¬ pat.isPrefixOf (c :: rest) = true) :
    removeAll pat (c :: rest) = c :: removeAll pat rest := by
  show removeAllFuel (rest.length + 1) pat (c :: rest) = _
  simp only [removeAllFuel]
  rw [if_neg (fun hc => h hc.2)]
  rfl

theorem isPrefixOf_head (a : Char) (as x : List Char)
    (h : (a :: as).isPrefixOf x = true) : x.head? = some a := by
  cases x with
  | nil => cases h
  | cons b bs =>
    simp only [List.isPrefixOf, Bool.and_eq_true, beq_iff_eq] at h
    rw [h.1]
    rfl

theorem removeAll_append_free (pat x y : List Char)
    (hpat : pat.head? = some '`') (hx : ∀ c ∈ x, c ≠ '`') :
    removeAll pat (x ++ y) = x ++ removeAll pat y := by
  induction x with
  | nil => rfl
  | cons c t ih =>
    have hc : c ≠ '`' := hx c (by simp)
    have hnp : ¬ pat.isPrefixOf (c :: (t ++ y)) = true := by
      intro hcontra
      cases pat with
      | nil => cases hpat
      | cons p ps =>
        injection hpat with hpat2
        have := isPrefixOf_head p ps _ hcontra
        simp only [List.head?_cons, Option.some.injEq] at this
        exact hc (this.trans hpat2)
    rw [List.cons_append, removeAll_cons_skip pat c (t ++ y) hnp,
      ih (fun d hd => hx d (by simp [hd])), List.cons_append]

theorem pyStripChars_cons_space (c : Char) (l : List Char) (h : isPySpace c = true) :
    pyStripChars (c :: l) = pyStripChars l := by
  unfold pyStripChars
  rw [List.dropWhile_cons_of_pos h]

theorem pyStripChars_concat_space (c : Char) (l : List Char) (h : isPySpace c = true) :
    pyStripChars (l ++ [c]) = pyStripChars l := by
  unfold pyStripChars
  rw [List.dropWhile_append]
  by_cases he : (l.dropWhile isPySpace).isEmpty = true
  · rw [if_pos he]
    rw [List.dropWhile_cons_of_pos h]
    have : l.dropWhile isPySpace = [] := by
      cases hd : l.dropWhile isPySpace with
      | nil => rfl
      | cons a t => rw [hd] at he; cases he
    rw [this]
    rfl
  · rw [if_neg he]
    rw [List.reverse_append]
    show ((List.reverse [c] ++ _).dropWhile isPySpace).reverse = _
    rw [show List.reverse [c] = [c] from rfl, List.cons_append, List.nil_append,
      List.dropWhile_cons_of_pos h]

theorem mem_pyStripChars (c : Char) (l : List Char) (h : c ∈ pyStripChars l) : c ∈ l := by
  unfold pyStripChars at h
  rw [List.mem_reverse] at h
  have h2 := (List.dropWhile_sublist isPySpace).mem h
  rw [List.mem_reverse] at h2
  exact (List.dropWhile_sublist isPySpace).mem h2

theorem stripFence_no_backtick (l : List Char) (h : ∀ c ∈ l, c ≠ '`') :
    stripFence l = l := by
  unfold stripFence
  have h1 : ¬ ("```json".data).isPrefixOf l = true := by
    intro hcontra
    have := isPrefixOf_head '`' ("``json".data) l hcontra
    cases l with
    | nil => cases this
    | cons a t =>
      injection this with this2
      exact h a (by simp) this2
  have h2 : ¬ ("```".data).isPrefixOf l = true := by
    intro hcontra
    have := isPrefixOf_head '`' ("``".data) l hcontra
    cases l with
    | nil => cases this
    | cons a t =>
      injection this with this2
      exact h a (by simp) this2
  rw [if_neg h1, if_neg h2]

/-- The full cleaning chain is a function of the fence-stripped text, and a
backtick-free payload wrapped in outer ```` ```json ```` or plain
```` ``` ```` fences strips back to the bare payload. -/
theorem stripFence_fenced (s : String) (h : ∀ c ∈ s.data, c ≠ '`') :
    stripFence (pyStripChars ("```json\n" ++ s ++ "\n```").data) = pyStripChars s.data ∧
    stripFence (pyStripChars ("```\n" ++ s ++ "\n```").data) = pyStripChars s.data := by
  constructor
  · have hF : ("```json\n" ++ s ++ "\n```").data
        = '`' :: '`' :: '`' :: 'j' :: 's' :: 'o' :: 'n' :: '\n'
          :: (s.data ++ '\n' :: '`' :: '`' :: '`' :: []) := rfl
    rw [hF]
    -- the fenced text starts and ends with a backtick, so the outer strip is
    -- the identity
    have hstrip : pyStripChars ('`' :: '`' :: '`' :: 'j' :: 's' :: 'o' :: 'n' :: '\n'
        :: (s.data ++ '\n' :: '`' :: '`' :: '`' :: [])) =
        '`' :: '`' :: '`' :: 'j' :: 's' :: 'o' :: 'n' :: '\n'
          :: (s.data ++ '\n' :: '`' :: '`' :: '`' :: []) := by
      apply pyStripChars_eq_self
      · intro c hc
        injection hc with hc2
        rw [← hc2]
        rfl
      · intro c hc
        have hform : '`' :: '`' :: '`' :: 'j' :: 's' :: 'o' :: 'n' :: '\n'
            :: (s.data ++ '\n' :: '`' :: '`' :: '`' :: [])
            = ('`' :: '`' :: '`' :: 'j' :: 's' :: 'o' :: 'n' :: '\n'
              :: (s.data ++ ['\n', '`', '`'])) ++ ['`'] := by
          simp
        rw [hform, List.getLast?_concat] at hc
        injection hc with hc2
        rw [← hc2]
        rfl
    rw [hstrip]
    unfold stripFence
    rw [if_pos (by rfl)]
    have hr1 : removeAll "```json".data ('`' :: '`' :: '`' :: 'j' :: 's' :: 'o' :: 'n' :: '\n'
        :: (s.data ++ '\n' :: '`' :: '`' :: '`' :: []))
        = '\n' :: (s.data ++ '\n' :: '`' :: '`' :: '`' :: []) := by
      have hshape : ('`' :: '`' :: '`' :: 'j' :: 's' :: 'o' :: 'n' :: '\n'
          :: (s.data ++ '\n' :: '`' :: '`' :: '`' :: []))
          = "```json".data ++ ('\n' :: (s.data ++ '\n' :: '`' :: '`' :: '`' :: [])) := rfl
      rw [hshape, removeAll_prefix _ _ (by decide)]
      rw [removeAll_cons_skip _ _ _ (by simp [List.isPrefixOf])]
      have hform2 : s.data ++ '\n' :: '`' :: '`' :: '`' :: []
          = s.data ++ "\n```".data := rfl
      rw [hform2, removeAll_append_free _ _ _ (by rfl) h]
      rfl
    rw [hr1]
    have hr2 : removeAll "```".data ('\n' :: (s.data ++ '\n' :: '`' :: '`' :: '`' :: []))
        = '\n' :: (s.data ++ ['\n']) := by
      rw [removeAll_cons_skip _ _ _ (by simp [List.isPrefixOf])]
      have hform2 : s.data ++ '\n' :: '`' :: '`' :: '`' :: []
          = s.data ++ "\n```".data := rfl
      rw [hform2, removeAll_append_free _ _ _ (by rfl) h]
      rfl
    rw [hr2]
    rw [pyStripChars_cons_space _ _ (by decide)]
    rw [pyStripChars_concat_space _ _ (by decide)]
  · have hF : ("```\n" ++ s ++ "\n```").data
        = '`' :: '`' :: '`' :: '\n' :: (s.data ++ '\n' :: '`' :: '`' :: '`' :: []) := rfl
    rw [hF]
    have hstrip : pyStripChars ('`' :: '`' :: '`' :: '\n'
        :: (s.data ++ '\n' :: '`' :: '`' :: '`' :: [])) =
        '`' :: '`' :: '`' :: '\n' :: (s.data ++ '\n' :: '`' :: '`' :: '`' :: []) := by
      apply pyStripChars_eq_self
      · intro c hc
        injection hc with hc2
        rw [← hc2]
        rfl
      · intro c hc
        have hform : '`' :: '`' :: '`' :: '\n' :: (s.data ++ '\n' :: '`' :: '`' :: '`' :: [])
            = ('`' :: '`' :: '`' :: '\n' :: (s.data ++ ['\n', '`', '`'])) ++ ['`'] := by
          simp
        rw [hform, List.getLast?_concat] at hc
        injection hc with hc2
        rw [← hc2]
        rfl
    rw [hstrip]
    unfold stripFence
    have hnot1 : ¬ ("```json".data).isPrefixOf ('`' :: '`' :: '`' :: '\n'
        :: (s.data ++ '\n' :: '`' :: '`' :: '`' :: [])) = true := by
      simp [List.isPrefixOf]
    rw [if_neg hnot1]
    rw [if_pos (by rfl)]
    have hr1 : removeAll "```".data ('`' :: '`' :: '`' :: '\n'
        :: (s.data ++ '\n' :: '`' :: '`' :: '`' :: []))
        = '\n' :: (s.data ++ ['\n']) := by
      have hshape : ('`' :: '`' :: '`' :: '\n' :: (s.data ++ '\n' :: '`' :: '`' :: '`' :: []))
          = "```".data ++ ('\n' :: (s.data ++ '\n' :: '`' :: '`' :: '`' :: [])) := rfl
      rw [hshape, removeAll_prefix _ _ (by decide)]
      rw [removeAll_cons_skip _ _ _ (by simp [List.isPrefixOf])]
      have hform2 : s.data ++ '\n' :: '`' :: '`' :: '`' :: []
          = s.data ++ "\n```".data := rfl
      rw [hform2, removeAll_append_free _ _ _ (by rfl) h]
      rfl
    rw [hr1]
    rw [pyStripChars_cons_space _ _ (by decide)]
    rw [pyStripChars_concat_space _ _ (by decide)]

/-- C7 (amended): for every payload containing no backtick characters,
wrapping it in outer code fences (with the `json` language tag or none)
leaves the parse result unchanged.  For payloads that do contain fence
markers the equivalence fails (see the counterexample), because the fence
stripping deletes every occurrence of the marker, inside string values
included. -/
theorem fenced_equals_unfenced (s : String) (h : ∀ c ∈ s.data, c ≠ '`') :
    parse_story_ideas ("```json\n" ++ s ++ "\n```") = parse_story_ideas s ∧
    parse_story_ideas ("```\n" ++ s ++ "\n```") = parse_story_ideas s := by
  obtain ⟨h1, h2⟩ := stripFence_fenced s h
  have hplain : stripFence (pyStripChars s.data) = pyStripChars s.data :=
    stripFence_no_backtick _ (fun c hc => h c (mem_pyStripChars c s.data hc))
  constructor
  · unfold parse_story_ideas parseStoryIdeasBody cleanResponse
    rw [h1, hplain]
  · unfold parse_story_ideas parseStoryIdeasBody cleanResponse
    rw [h2, hplain]

/-- C7 witness: a concrete backtick-free payload parses identically fenced
and unfenced. -/
theorem fenced_equals_unfenced_witness :
    parse_story_ideas ("```json\n" ++ "[\x7b\"title\":\"T\",\"body\":\"B\"\x7d]" ++ "\n```")
      = parse_story_ideas "[\x7b\"title\":\"T\",\"body\":\"B\"\x7d]" ∧
    parse_story_ideas ("```\n" ++ "[\x7b\"title\":\"T\",\"body\":\"B\"\x7d]" ++ "\n```")
      = parse_story_ideas "[\x7b\"title\":\"T\",\"body\":\"B\"\x7d]" :=
  fenced_equals_unfenced "[\x7b\"title\":\"T\",\"body\":\"B\"\x7d]" (by decide)

/-! ### C1: the JSON parser on canonically rendered `{title, body}` arrays -/

theorem scanString_plain : ∀ (v : List Char),
    (∀ c ∈ v, c ≠ '"' ∧ c ≠ '\\' ∧ 0x20 ≤ c.toNat) →
    ∀ rest, scanString (v ++ '"' :: rest) = .ok (v, rest)
  | [], _, rest => by
    rw [List.nil_append, scanString.eq_def]
    rfl
  | c :: t, hv, rest => by
    obtain ⟨h1, h2, h3⟩ := hv c (by simp)
    rw [List.cons_append, scanString.eq_def]
    simp only [h1, h2, if_neg (by omega : ¬ c.toNat < 32), if_false, reduceIte]
    rw [scanString_plain t (fun d hd => hv d (by simp [hd])) rest]
    rfl

theorem parseValue_string (v : List Char)
    (hv : ∀ c ∈ v, c ≠ '"' ∧ c ≠ '\\' ∧ 0x20 ≤ c.toNat) (f : Nat) (rest : List Char) :
    parseValue (f + 1) ('"' :: (v ++ '"' :: rest)) = .ok (.jstr v, rest) := by
  rw [show parseValue (f + 1) ('"' :: (v ++ '"' :: rest))
      = (scanString (v ++ '"' :: rest)).map (fun p => (JValue.jstr p.1, p.2)) from rfl]
  rw [scanString_plain v hv rest]
  rfl

theorem parseObjMembers_pair (nt nb : List Char)
    (hnt : ∀ c ∈ nt, c ≠ '"' ∧ c ≠ '\\' ∧ 0x20 ≤ c.toNat)
    (hnb : ∀ c ∈ nb, c ≠ '"' ∧ c ≠ '\\' ∧ 0x20 ≤ c.toNat)
    (f : Nat) (acc : List (List Char × JValue)) (rest : List Char) :
    parseObjMembers (f + 3)
      ('"' :: ("title".data ++ '"' :: ':' :: '"' ::
        (nt ++ '"' :: ',' :: '"' :: ("body".data ++ '"' :: ':' :: '"' ::
          (nb ++ '"' :: '}' :: rest))))) acc
      = .ok (.jobj (JObj.ofList (acc ++ [("title".data, .jstr nt), ("body".data, .jstr nb)])),
          rest) := by
  have hT : scanString ('t' :: 'i' :: 't' :: 'l' :: 'e' :: '"' :: ':' :: '"' ::
      (nt ++ '"' :: ',' :: '"' :: 'b' :: 'o' :: 'd' :: 'y' :: '"' :: ':' :: '"' ::
        (nb ++ '"' :: '}' :: rest)))
      = .ok ("title".data, ':' :: '"' ::
        (nt ++ '"' :: ',' :: '"' :: 'b' :: 'o' :: 'd' :: 'y' :: '"' :: ':' :: '"' ::
          (nb ++ '"' :: '}' :: rest))) :=
    scanString_plain "title".data (by decide) _
  have hB : scanString ('b' :: 'o' :: 'd' :: 'y' :: '"' :: ':' :: '"' ::
      (nb ++ '"' :: '}' :: rest))
      = .ok ("body".data, ':' :: '"' :: (nb ++ '"' :: '}' :: rest)) :=
    scanString_plain "body".data (by decide) _
  simp [parseObjMembers, hT, hB, parseValue_string nt hnt,
    parseValue_string nb hnb, List.dropWhile, isJsonWs]

theorem renderObj_eq_T (t b tail : List Char) :
    renderObj t b ++ tail = renderObjT t b tail := by
  simp [renderObj, renderObjT, List.append_assoc]

theorem renderObjs_eq_T : ∀ (ps : List (String × String)) (tail : List Char),
    renderObjs ps ++ tail = renderObjsT ps tail
  | [], tail => by simp [renderObjs, renderObjsT]
  | [p], tail => renderObj_eq_T p.1.data p.2.data tail
  | p :: q :: qs, tail => by
    show renderObj p.1.data p.2.data ++ ',' :: renderObjs (q :: qs) ++ tail
      = renderObjT p.1.data p.2.data (',' :: renderObjsT (q :: qs) tail)
    rw [List.append_assoc, List.cons_append, renderObjs_eq_T (q :: qs) tail,
      renderObj_eq_T]

theorem parseValue_obj (nt nb : List Char)
    (hnt : ∀ c ∈ nt, c ≠ '"' ∧ c ≠ '\\' ∧ 0x20 ≤ c.toNat)
    (hnb : ∀ c ∈ nb, c ≠ '"' ∧ c ≠ '\\' ∧ 0x20 ≤ c.toNat)
    (f : Nat) (rest : List Char) :
    parseValue (f + 4) (renderObjT nt nb rest)
      = .ok (.jobj (JObj.ofList [("title".data, .jstr nt), ("body".data, .jstr nb)]),
          rest) := by
  rw [show parseValue (f + 4) (renderObjT nt nb rest)
      = parseObjMembers (f + 3)
          ('"' :: ("title".data ++ '"' :: ':' :: '"' ::
            (nt ++ '"' :: ',' :: '"' :: ("body".data ++ '"' :: ':' :: '"' ::
              (nb ++ '"' :: '}' :: rest))))) [] from rfl]
  rw [parseObjMembers_pair nt nb hnt hnb f [] rest]
  rfl

/-- Cleanliness of both fields of every pair: usable inside a JSON string
literal and free of characters the decoder escapes or rejects. -/
def cleanPair (p : String × String) : Prop :=
  (∀ c ∈ p.1.data, c ≠ '"' ∧ c ≠ '\\' ∧ 0x20 ≤ c.toNat) ∧
  (∀ c ∈ p.2.data, c ≠ '"' ∧ c ≠ '\\' ∧ 0x20 ≤ c.toNat)

/-- One evaluation step of the array-element loop, once the element's own
parse result is known. -/
theorem parseArrayItems_step (f : Nat) (l : List Char) (acc : List JValue)
    (v : JValue) (r : List Char) (h : parseValue f l = .ok (v, r)) :
    parseArrayItems (f + 1) l acc
      = match r.dropWhile isJsonWs with
        | ']' :: r2 => .ok (.jarr (JArr.ofList (acc ++ [v])), r2)
        | ',' :: r2 => parseArrayItems f r2 (acc ++ [v])
        | _ => .error .expectingComma := by
  simp only [parseArrayItems]
  rw [h]

theorem parseArrayItems_objs : ∀ (ps : List (String × String)),
    (∀ p ∈ ps, cleanPair p) → ps ≠ [] →
    ∀ (f : Nat) (acc : List JValue) (rest : List Char),
    parseArrayItems (f + ps.length + 4) (renderObjsT ps (']' :: rest)) acc
      = .ok (.jarr (JArr.ofList (acc ++ ps.map objVal)), rest)
  | [], _, hne, _, _, _ => absurd rfl hne
  | [p], hp, _, f, acc, rest => by
    obtain ⟨h1, h2⟩ := hp p (by simp)
    have hv : parseValue (f + 4) (renderObjsT [p] (']' :: rest))
        = .ok (objVal p, ']' :: rest) := parseValue_obj p.1.data p.2.data h1 h2 f (']' :: rest)
    rw [show (f + [p].length + 4 : Nat) = (f + 4) + 1 from rfl]
    rw [parseArrayItems_step _ _ _ _ _ hv]
    rfl
  | p :: q :: qs, hp, _, f, acc, rest => by
    obtain ⟨h1, h2⟩ := hp p (by simp)
    have hv : parseValue (f + qs.length + 5)
        (renderObjsT (p :: q :: qs) (']' :: rest))
        = .ok (objVal p, ',' :: renderObjsT (q :: qs) (']' :: rest)) :=
      parseValue_obj p.1.data p.2.data h1 h2 (f + qs.length + 1) _
    have ih : parseArrayItems (f + qs.length + 5) (renderObjsT (q :: qs) (']' :: rest))
        (acc ++ [objVal p])
        = .ok (.jarr (JArr.ofList ((acc ++ [objVal p]) ++ (q :: qs).map objVal)), rest) :=
      parseArrayItems_objs (q :: qs) (fun r hr => hp r (List.mem_cons_of_mem p hr))
        (List.cons_ne_nil q qs) f (acc ++ [objVal p]) rest
    rw [show (f + (p :: q :: qs).length + 4 : Nat) = (f + qs.length + 5) + 1 from rfl]
    rw [parseArrayItems_step _ _ _ _ _ hv]
    show parseArrayItems (f + qs.length + 5) (renderObjsT (q :: qs) (']' :: rest))
        (acc ++ [objVal p])
      = .ok (.jarr (JArr.ofList (acc ++ (p :: q :: qs).map objVal)), rest)
    rw [ih]
    simp [List.append_assoc]

theorem renderObjsT_length : ∀ (ps : List (String × String)) (tail : List Char),
    4 * ps.length + tail.length ≤ (renderObjsT ps tail).length
  | [], tail => by simp [renderObjsT]
  | [p], tail => by
    simp only [renderObjsT, renderObjT, List.length_cons, List.length_append,
      List.length_nil]
    omega
  | p :: q :: qs, tail => by
    have ih := renderObjsT_length (q :: qs) tail
    simp only [renderObjsT, renderObjT, List.length_cons, List.length_append,
      List.length_nil] at ih ⊢
    omega

theorem renderObjsT_cons_head (p : String × String) (t : List (String × String))
    (tail : List Char) : ∃ X, renderObjsT (p :: t) tail = '{' :: X := by
  cases t with
  | nil => exact ⟨_, rfl⟩
  | cons q qs => exact ⟨_, rfl⟩

theorem jsonLoads_rendered : ∀ (ps : List (String × String)),
    (∀ p ∈ ps, cleanPair p) →
    jsonLoads ('[' :: renderObjsT ps [']'])
      = .ok (.jarr (JArr.ofList (ps.map objVal)))
  | [], _ => rfl
  | p :: t, hp => by
    obtain ⟨X, hX⟩ := renderObjsT_cons_head p t [']']
    have harr : parseArrayItems ((renderObjsT (p :: t) [']']).length + 1)
        (renderObjsT (p :: t) [']']) []
        = .ok (.jarr (JArr.ofList ([] ++ (p :: t).map objVal)), []) := by
      obtain ⟨g, hg⟩ : ∃ g, (renderObjsT (p :: t) [']']).length + 1
          = g + (p :: t).length + 4 := by
        have hlen := renderObjsT_length (p :: t) [']']
        refine ⟨(renderObjsT (p :: t) [']']).length + 1 - ((p :: t).length + 4), ?_⟩
        simp only [List.length_cons, List.length_nil] at hlen ⊢
        omega
      rw [hg]
      exact parseArrayItems_objs (p :: t) hp (List.cons_ne_nil p t) g [] []
    have hpv : parseValue (('[' :: renderObjsT (p :: t) [']']).length + 1)
        ('[' :: renderObjsT (p :: t) [']'])
        = .ok (.jarr (JArr.ofList ((p :: t).map objVal)), []) := by
      rw [hX] at harr ⊢
      rw [show parseValue (('[' :: '{' :: X).length + 1) ('[' :: '{' :: X)
          = parseArrayItems (('{' :: X).length + 1) ('{' :: X) [] from rfl]
      rw [harr]
      rfl
    unfold jsonLoads
    rw [hpv]
    rfl

theorem collapse_cons_nonspace (c : Char) (l : List Char) (h : isPySpace c = false) :
    collapseWs (c :: l) = c :: collapseWs l := by
  cases l with
  | nil => simp [collapseWs, h]
  | cons d t => simp [collapseWs, h]

theorem collapse_append_cons : ∀ (x : List Char) (c : Char) (y : List Char),
    isPySpace c = false →
    collapseWs (x ++ c :: y) = collapseWs x ++ collapseWs (c :: y)
  | [], c, y, hc => by simp [collapseWs]
  | [a], c, y, hc => by
    by_cases ha : isPySpace a = true <;>
      simp [collapseWs, ha, hc]
  | a :: a2 :: tx, c, y, hc => by
    have ih := collapse_append_cons (a2 :: tx) c y hc
    simp only [List.cons_append] at ih ⊢
    by_cases hab : (isPySpace a && isPySpace a2) = true <;>
      simp [collapseWs, hab, ih]

theorem mem_collapseWs : ∀ (l : List Char) (c : Char), c ∈ collapseWs l → c ∈ l ∨ c = ' '
  | [], c, h => by simp [collapseWs] at h
  | [a], c, h => by
    by_cases ha : isPySpace a = true
    · simp [collapseWs, ha] at h
      exact .inr h
    · simp [collapseWs, ha] at h
      exact .inl (by simp [h])
  | a :: b :: t, c, h => by
    simp only [collapseWs] at h
    by_cases hab : (isPySpace a && isPySpace b) = true
    · rw [if_pos hab] at h
      rcases mem_collapseWs (b :: t) c h with h1 | h1
      · exact .inl (List.mem_cons_of_mem a h1)
      · exact .inr h1
    · rw [if_neg hab] at h
      rcases List.mem_cons.mp h with h1 | h1
      · by_cases ha : isPySpace a = true
        · rw [if_pos ha] at h1
          exact .inr h1
        · rw [if_neg ha] at h1
          exact .inl (by rw [h1]; exact List.mem_cons_self a (b :: t))
      · rcases mem_collapseWs (b :: t) c h1 with h2 | h2
        · exact .inl (List.mem_cons_of_mem a h2)
        · exact .inr h2

/-- A character neither a quote nor a backslash stays clean (and printable)
through the control-character normalization. -/
theorem normChar_plain (e : Char) (h1 : e ≠ '"') (h2 : e ≠ '\\') :
    ctrlToSpace (nlTabCrToSpace e) ≠ '"' ∧ ctrlToSpace (nlTabCrToSpace e) ≠ '\\' ∧
    0x20 ≤ (ctrlToSpace (nlTabCrToSpace e)).toNat := by
  unfold nlTabCrToSpace
  split
  · decide
  · unfold ctrlToSpace
    split
    · decide
    · rename_i hC
      refine ⟨h1, h2, ?_⟩
      simp only [Bool.or_eq_true, decide_eq_true_eq, not_or] at hC
      omega

theorem normalizeWs_plain (l : List Char) (h : plainValue l = true) :
    ∀ c ∈ normalizeWs l, c ≠ '"' ∧ c ≠ '\\' ∧ 0x20 ≤ c.toNat := by
  intro c hc
  rcases mem_collapseWs ((l.map nlTabCrToSpace).map ctrlToSpace) c hc with h1 | h1
  · simp only [List.mem_map] at h1
    obtain ⟨d, ⟨e, he, hed⟩, hdc⟩ := h1
    have hne : ¬e = '"' ∧ ¬e = '\\' := by
      have hall := List.all_eq_true.mp h e he
      simpa using hall
    rw [← hdc, ← hed]
    exact normChar_plain e hne.1 hne.2
  · rw [h1]
    refine ⟨by decide, by decide, by decide⟩

theorem collapse_map_renderObj (t b : List Char) :
    collapseWs (((renderObj t b).map nlTabCrToSpace).map ctrlToSpace)
      = renderObj (normalizeWs t) (normalizeWs b) := by
  have e1 : ctrlToSpace (nlTabCrToSpace '{') = '{' := rfl
  have e2 : ctrlToSpace (nlTabCrToSpace '"') = '"' := rfl
  have e3 : ctrlToSpace (nlTabCrToSpace 't') = 't' := rfl
  have e4 : ctrlToSpace (nlTabCrToSpace 'i') = 'i' := rfl
  have e5 : ctrlToSpace (nlTabCrToSpace 'l') = 'l' := rfl
  have e6 : ctrlToSpace (nlTabCrToSpace 'e') = 'e' := rfl
  have e7 : ctrlToSpace (nlTabCrToSpace ':') = ':' := rfl
  have e8 : ctrlToSpace (nlTabCrToSpace ',') = ',' := rfl
  have e9 : ctrlToSpace (nlTabCrToSpace 'b') = 'b' := rfl
  have e10 : ctrlToSpace (nlTabCrToSpace 'o') = 'o' := rfl
  have e11 : ctrlToSpace (nlTabCrToSpace 'd') = 'd' := rfl
  have e12 : ctrlToSpace (nlTabCrToSpace 'y') = 'y' := rfl
  have e13 : ctrlToSpace (nlTabCrToSpace '}') = '}' := rfl
  have s1 : isPySpace '{' = false := by decide
  have s2 : isPySpace '"' = false := by decide
  have s3 : isPySpace 't' = false := by decide
  have s4 : isPySpace 'i' = false := by decide
  have s5 : isPySpace 'l' = false := by decide
  have s6 : isPySpace 'e' = false := by decide
  have s7 : isPySpace ':' = false := by decide
  have s8 : isPySpace ',' = false := by decide
  have s9 : isPySpace 'b' = false := by decide
  have s10 : isPySpace 'o' = false := by decide
  have s11 : isPySpace 'd' = false := by decide
  have s12 : isPySpace 'y' = false := by decide
  simp only [renderObj, normalizeWs, List.map_cons, List.map_append, List.map_nil]
  simp only [e1, e2, e3, e4, e5, e6, e7, e8, e9, e10, e11, e12, e13]
  rw [collapse_cons_nonspace '{' _ s1, collapse_cons_nonspace '"' _ s2,
    collapse_cons_nonspace 't' _ s3, collapse_cons_nonspace 'i' _ s4,
    collapse_cons_nonspace 't' _ s3, collapse_cons_nonspace 'l' _ s5,
    collapse_cons_nonspace 'e' _ s6, collapse_cons_nonspace '"' _ s2,
    collapse_cons_nonspace ':' _ s7, collapse_cons_nonspace '"' _ s2]
  rw [collapse_append_cons _ '"' _ s2]
  rw [collapse_cons_nonspace '"' _ s2, collapse_cons_nonspace ',' _ s8,
    collapse_cons_nonspace '"' _ s2, collapse_cons_nonspace 'b' _ s9,
    collapse_cons_nonspace 'o' _ s10, collapse_cons_nonspace 'd' _ s11,
    collapse_cons_nonspace 'y' _ s12, collapse_cons_nonspace '"' _ s2,
    collapse_cons_nonspace ':' _ s7, collapse_cons_nonspace '"' _ s2]
  rw [collapse_append_cons _ '"' _ s2]
  rw [show collapseWs ('"' :: '}' :: []) = '"' :: '}' :: [] from rfl]

theorem collapse_map_renderObjs : ∀ (pairs : List (String × String)),
    collapseWs (((renderObjs pairs).map nlTabCrToSpace).map ctrlToSpace)
      = renderObjs (pairs.map normPair)
  | [] => rfl
  | [p] => collapse_map_renderObj p.1.data p.2.data
  | p :: q :: qs => by
    have ih := collapse_map_renderObjs (q :: qs)
    have hobj := collapse_map_renderObj p.1.data p.2.data
    have s8 : isPySpace ',' = false := by decide
    show collapseWs (((renderObj p.1.data p.2.data
        ++ ',' :: renderObjs (q :: qs)).map nlTabCrToSpace).map ctrlToSpace)
      = renderObjs ((p :: q :: qs).map normPair)
    simp only [List.map_append, List.map_cons]
    rw [show ctrlToSpace (nlTabCrToSpace ',') = ',' from rfl]
    rw [collapse_append_cons _ ',' _ s8]
    rw [hobj]
    rw [collapse_cons_nonspace ',' _ s8]
    rw [ih]
    rfl

theorem cleanResponse_rendered (pairs : List (String × String)) :
    cleanResponse (renderIdeasJson pairs).data
      = '[' :: renderObjsT (pairs.map normPair) [']'] := by
  unfold cleanResponse
  rw [show (renderIdeasJson pairs).data = '[' :: (renderObjs pairs ++ [']']) from rfl]
  have hhead : ∀ c : Char,
      (('[' :: (renderObjs pairs ++ [']'])).head? = some c) → isPySpace c = false := by
    intro c h
    simp only [List.head?_cons, Option.some.injEq] at h
    rw [← h]
    decide
  have hlast : ∀ c : Char,
      (('[' :: (renderObjs pairs ++ [']'])).getLast? = some c) → isPySpace c = false := by
    intro c h
    rw [show ('[' :: (renderObjs pairs ++ [']']))
        = ('[' :: renderObjs pairs) ++ [']'] from by simp] at h
    rw [List.getLast?_concat] at h
    simp only [Option.some.injEq] at h
    rw [← h]
    decide
  rw [pyStripChars_eq_self _ hhead hlast]
  have hsf : stripFence ('[' :: (renderObjs pairs ++ [']']))
      = '[' :: (renderObjs pairs ++ [']']) := by
    unfold stripFence
    rw [if_neg (by simp [List.isPrefixOf]), if_neg (by simp [List.isPrefixOf])]
  rw [hsf]
  simp only [List.map_cons, List.map_append, List.map_nil]
  rw [show ctrlToSpace (nlTabCrToSpace '[') = '[' from rfl,
    show ctrlToSpace (nlTabCrToSpace ']') = ']' from rfl]
  rw [collapse_cons_nonspace '[' _ (by decide)]
  rw [collapse_append_cons _ ']' _ (by decide)]
  rw [show collapseWs (']' :: []) = ']' :: [] from rfl]
  rw [collapse_map_renderObjs pairs]
  rw [renderObjs_eq_T]

theorem validateIdeas_objVals : ∀ (ps : List (String × String)),
    validateIdeas (JArr.ofList (ps.map objVal))
      = .ok (ps.map fun p => ⟨⟨pyStripChars p.1.data⟩, ⟨pyStripChars p.2.data⟩⟩)
  | [] => rfl
  | p :: t => by
    have ih := validateIdeas_objVals t
    show (match validateIdeas (JArr.ofList (t.map objVal)) with
      | .ok ideas =>
        Except.ok ((⟨⟨pyStripChars p.1.data⟩, ⟨pyStripChars p.2.data⟩⟩ : StoryIdea) :: ideas)
      | .error e => Except.error e)
      = .ok ((p :: t).map fun p => ⟨⟨pyStripChars p.1.data⟩, ⟨pyStripChars p.2.data⟩⟩)
    rw [ih]
    rfl

/-- C1 (amended): for every well-formed JSON array of `{"title": ..., "body": ...}`
objects whose string values contain no quote and no backslash,
`parse_story_ideas` returns exactly one `StoryIdea` per object, in order; but
each value comes back *normalized*, not merely trimmed: the pre-parse cleaning
replaces `\n`/`\t`/`\r` and every ASCII control character inside the string
values by spaces and collapses every whitespace run to a single space, and
only then is the leading/trailing whitespace trimmed. -/
theorem wellformed_arrays_roundtrip (pairs : List (String × String))
    (h : ∀ p ∈ pairs, plainValue p.1.data = true ∧ plainValue p.2.data = true) :
    parse_story_ideas (renderIdeasJson pairs)
      = .ok (pairs.map fun p => ⟨normTrim p.1, normTrim p.2⟩) := by
  have hclean : ∀ p ∈ pairs.map normPair, cleanPair p := by
    intro p hp
    simp only [List.mem_map] at hp
    obtain ⟨q, hq, hpq⟩ := hp
    obtain ⟨h1, h2⟩ := h q hq
    rw [← hpq]
    exact ⟨normalizeWs_plain q.1.data h1, normalizeWs_plain q.2.data h2⟩
  have hjson := jsonLoads_rendered (pairs.map normPair) hclean
  unfold parse_story_ideas parseStoryIdeasBody ideasDataStage
  rw [cleanResponse_rendered pairs]
  rw [hjson]
  show (match validateIdeas (JArr.ofList ((pairs.map normPair).map objVal)) with
    | .ok ideas => Except.ok ideas
    | .error e => if isCaughtByParseHandler e then Except.ok [] else Except.error e)
    = .ok (pairs.map fun p => ⟨normTrim p.1, normTrim p.2⟩)
  rw [validateIdeas_objVals (pairs.map normPair)]
  show Except.ok ((pairs.map normPair).map
      fun p => (⟨⟨pyStripChars p.1.data⟩, ⟨pyStripChars p.2.data⟩⟩ : StoryIdea))
    = .ok (pairs.map fun p => ⟨normTrim p.1, normTrim p.2⟩)
  rw [List.map_map]
  rfl

/-- C1 witness: a concrete two-field array with an internal double space and a
newline round-trips to the normalized, trimmed values. -/
theorem wellformed_arrays_roundtrip_witness :
    (∀ p ∈ [(("T  1" : String), ("B\n2" : String))],
      plainValue p.1.data = true ∧ plainValue p.2.data = true) ∧
    parse_story_ideas (renderIdeasJson [("T  1", "B\n2")]) = .ok [⟨"T 1", "B 2"⟩] :=
  ⟨by decide, by
    have h := wellformed_arrays_roundtrip [("T  1", "B\n2")] (by decide)
    rw [h]
    rfl⟩

end ScriptWriter
